import Mathlib

/-!
# Verification of the Candidate Scoring Engine

A shallow embedding of `candidate_scorer/functions.py` and the request
validation of `candidate_scorer/server.py`, together with proofs settling
the specification claims about profile normalization, section indexing and
multi-factor aggregation scoring.

Modelling conventions:
* Python values (parsed JSON) are modelled by the inductive `PyVal`;
  Python float arithmetic is idealised as exact arithmetic in a linear
  ordered field `α` (instantiated at `ℝ` with `Real.log` for the actual
  `math.log`-based aggregation, and at `ℚ` for executable witnesses).
* The sentence-transformer model, `ast.literal_eval`/`json.loads` and
  `float(str)` are external black boxes; they are modelled by an explicit
  environment `Env` of function parameters.
* The flat inner-product index (`faiss.IndexFlatIP` under `IndexIDMap`) is
  modelled by exact top-k retrieval: entries sorted by descending inner
  product, truncated to `top_k`, padded with id `-1` when fewer than
  `top_k` entries are stored (faiss pads missing slots with id `-1`).
-/

deriving instance DecidableEq for Except

namespace CandScore

/-! ## String utilities (`normalize_text` and friends)

Lean's built-in `String.trim`/`toLower`/`take`/`intercalate` are
implemented by byte-position loops that the kernel cannot evaluate, so the
corresponding Python string operations are modelled by equivalent
character-list implementations, keeping concrete witnesses evaluable. -/

/-- Python `needle in hay` on strings (the empty needle is in everything). -/
def substrB (needle hay : String) : Bool :=
  decide (needle.toList <:+: hay.toList)

/-- Drop leading and trailing whitespace from a character list. -/
def trimChars (cs : List Char) : List Char :=
  ((cs.dropWhile Char.isWhitespace).reverse.dropWhile Char.isWhitespace).reverse

/-- Python `s.strip()`. -/
def strTrim (s : String) : String := String.mk (trimChars s.toList)

/-- Python `s.lower()`. -/
def strLower (s : String) : String := String.mk (s.toList.map Char.toLower)

/-- Python `s[:n]`. -/
def strTake (s : String) (n : ℕ) : String := String.mk (s.toList.take n)

/-- Python `sep.join(parts)`. -/
def strJoin (sep : String) : List String → String
  | [] => ""
  | x :: rest => rest.foldl (fun acc y => acc ++ sep ++ y) x

/-- Helper for `re.sub(r"<[^>]+>", " ", s)`: given the characters after a
`<`, if a nonempty run of non-`>` characters is closed by `>`, return the
characters after that `>`. -/
def tagSplit (cs : List Char) : Option (List Char) :=
  let body := cs.takeWhile (fun c => c ≠ '>')
  if body.isEmpty then Option.none
  else
    match cs.drop body.length with
    | '>' :: rest => Option.some rest
    | _ => Option.none

/-- Fuelled scan implementing `re.sub(r"<[^>]+>", " ", s)`: each matched
tag (shortest `<…>` with nonempty body) becomes one space; an unmatched
`<` stays. Fuel `cs.length` always suffices (each step consumes a char). -/
def stripTagsFuel : ℕ → List Char → List Char
  | 0, cs => cs
  | _ + 1, [] => []
  | fuel + 1, c :: cs =>
    if c = '<' then
      match tagSplit cs with
      | Option.some rest => ' ' :: stripTagsFuel fuel rest
      | Option.none => c :: stripTagsFuel fuel cs
    else c :: stripTagsFuel fuel cs

def stripTags (cs : List Char) : List Char :=
  stripTagsFuel cs.length cs

/-- Fuelled scan implementing `re.sub(r"\s+", " ", s)`: collapse every
whitespace run to one space. Fuel `cs.length` always suffices (each step
consumes at least one character). -/
def collapseWsFuel : ℕ → List Char → List Char
  | 0, _ => []
  | _ + 1, [] => []
  | fuel + 1, c :: cs =>
    if c.isWhitespace then ' ' :: collapseWsFuel fuel (cs.dropWhile Char.isWhitespace)
    else c :: collapseWsFuel fuel cs

def collapseWs (cs : List Char) : List Char := collapseWsFuel cs.length cs

/-- `normalize_text` (functions.py:23-27): strip, drop HTML-ish tags,
collapse whitespace, strip again. (The `Optional` input's `None` case,
mapped to `""` by `s or ""`, is never exercised by the engine's call
sites, so the model takes a `String`.) -/
def normalize_text (s : String) : String :=
  strTrim (String.mk (collapseWs (stripTags (trimChars s.toList))))

/-- `re.split(pattern, s, maxsplit=1)` for a single-character alternative
pattern: split at the first occurrence of any separator. -/
def splitFirstAny (seps : List Char) (s : String) : String × Option String :=
  let cs := s.toList
  let pre := cs.takeWhile (fun c => c ∉ seps)
  if pre.length = cs.length then (s, Option.none)
  else (String.mk pre, Option.some (String.mk (cs.drop (pre.length + 1))))

/-- `re.split(pattern, s)` for a single-character alternative pattern:
split at every occurrence of any separator. -/
def splitAny (seps : List Char) (s : String) : List String :=
  (s.toList.foldr
    (fun c acc =>
      if c ∈ seps then [] :: acc
      else
        match acc with
        | g :: gs => (c :: g) :: gs
        | [] => [[c]])
    [[]]).map String.mk

/-- `os.path.splitext(os.path.basename(path))[0]`: filename without
extension (the extension starts at the last dot that has some non-dot
character before it in the basename). -/
def stem (path : String) : String :=
  let name := ((splitAny ['/'] path).getLast?).getD path
  let cs := name.toList
  match ((cs.enum.filter (fun p => p.2 = '.')).map (·.1)).getLast? with
  | Option.some i => if (cs.take i).any (fun c => c ≠ '.') then String.mk (cs.take i) else name
  | Option.none => name



/-- Python values as parsed from JSON (plus values produced by
`ast.literal_eval`): `None`, booleans, numbers (int/float idealised as `ℚ`),
strings, lists and dicts (assoc lists with the first binding of a key being
the live one, mirroring unique-key Python dicts). -/
inductive PyVal where
  | none
  | bool (b : Bool)
  | num (q : ℚ)
  | str (s : String)
  | list (xs : List PyVal)
  | dict (kvs : List (String × PyVal))

/-- Python truthiness: `None`, `False`, `0`, `""`, `[]`, `{}` are falsy. -/
def PyVal.truthy : PyVal → Bool
  | .none => false
  | .bool b => b
  | .num q => q ≠ 0
  | .str s => s ≠ ""
  | .list xs => !xs.isEmpty
  | .dict kvs => !kvs.isEmpty

/-- `x or y` on Python values (returns `x` when truthy, else `y`). -/
def pyOr (x y : PyVal) : PyVal := if x.truthy then x else y

/-- Structural size of a value, used as recursion fuel for the recursive
flatteners (any recursive call is on a strictly smaller subvalue, so this
fuel always suffices). -/
def PyVal.size : PyVal → ℕ
  | .none => 1
  | .bool _ => 1
  | .num _ => 1
  | .str _ => 1
  | .list xs => 1 + (xs.attach.map fun v => PyVal.size v.1).sum
  | .dict kvs => 1 + (kvs.attach.map fun kv => PyVal.size kv.1.2).sum
  decreasing_by
  · have := List.sizeOf_lt_of_mem v.2
    simp only [PyVal.list.sizeOf_spec]
    omega
  · have h1 := List.sizeOf_lt_of_mem kv.2
    have h2 : sizeOf kv.1.2 < sizeOf kv.1 := by
      obtain ⟨⟨a, b⟩, hk⟩ := kv
      simp only [Prod.mk.sizeOf_spec]
      omega
    simp only [PyVal.dict.sizeOf_spec]
    omega

def PyVal.isNone : PyVal → Bool
  | .none => true
  | _ => false

def PyVal.isDict : PyVal → Bool
  | .dict _ => true
  | _ => false

/-- Python `str()`; exact for the values the engine manipulates as strings
(`str` values, `None`, booleans, integral numbers). Containers are rendered
structurally; non-integral numbers by their rational literal. -/
def pyStr : PyVal → String
  | .none => "None"
  | .bool b => if b then "True" else "False"
  | .num q => if q.den = 1 then toString q.num else toString q.num ++ "/" ++ toString q.den
  | .str s => s
  | .list xs => "[" ++ strJoin ", " (xs.attach.map fun v =>
      match v with
      | ⟨.str s, _⟩ => "'" ++ s ++ "'"
      | ⟨v, _⟩ => pyStr v) ++ "]"
  | .dict kvs => "\x7b" ++ strJoin ", " (kvs.attach.map fun kv =>
      "'" ++ kv.1.1 ++ "': " ++ pyStr kv.1.2) ++ "\x7d"
  decreasing_by
  · have := List.sizeOf_lt_of_mem ‹v ∈ xs›
    simp only [PyVal.list.sizeOf_spec]
    omega
  · have h1 := List.sizeOf_lt_of_mem kv.2
    have h2 : sizeOf kv.1.2 < sizeOf kv.1 := by
      obtain ⟨⟨a, b⟩, hk⟩ := kv
      simp only [Prod.mk.sizeOf_spec]
      omega
    simp only [PyVal.dict.sizeOf_spec]
    omega

/-- `d.get(k)` on the raw binding list of a dict: first binding wins
(`None` if absent). -/
def dictGet? (kvs : List (String × PyVal)) (k : String) : Option PyVal :=
  (kvs.find? (fun kv => kv.1 = k)).map (·.2)

/-- `d.get(k)` with Python's `None` default. -/
def dictGetD (kvs : List (String × PyVal)) (k : String) : PyVal :=
  (dictGet? kvs k).getD .none

/-- `k in d`. -/
def dictHas (kvs : List (String × PyVal)) (k : String) : Bool :=
  (dictGet? kvs k).isSome

/-- `d[k] = v`: replace the first binding of `k`, else append. -/
def dictSet (kvs : List (String × PyVal)) (k : String) (v : PyVal) :
    List (String × PyVal) :=
  match kvs with
  | [] => [(k, v)]
  | kv :: rest => if kv.1 = k then (k, v) :: rest else kv :: dictSet rest k v

/-- `profile.get(k)` where the receiver may be any value. A non-dict
receiver raises `AttributeError` in Python; the engine only reaches these
call sites with dict receivers, and the model returns `None` there. -/
def pyGetD (v : PyVal) (k : String) : PyVal :=
  match v with
  | .dict kvs => dictGetD kvs k
  | _ => .none

/-- `_get_field(d, *candidates, default=None)` (functions.py:29-36): the
first candidate key that is present with a non-`None` value wins. Returns
`Option`; `none` stands for the `default` outcome. -/
def get_field? (v : PyVal) (candidates : List String) : Option PyVal :=
  match v with
  | .dict kvs =>
    candidates.findSome? fun c =>
      match dictGet? kvs c with
      | Option.none => Option.none
      | Option.some w => if w.isNone then Option.none else Option.some w
  | _ => Option.none

/-- `_get_field` with an explicit default value. -/
def get_field (v : PyVal) (candidates : List String) (dflt : PyVal) : PyVal :=
  (get_field? v candidates).getD dflt

/-! ## The external environment -/

/-- Black-box collaborators of the engine, supplied as parameters:
* `embed` — the sentence-transformer encode of one text followed by
  `faiss.normalize_L2` (`_embed_texts` applies it per text of a batch);
* `parseLit` — the `ast.literal_eval`-then-`json.loads` fallback chain of
  `try_parse_maybe_string`, `none` when both parsers fail;
* `floatParse` — Python `float(str)`, `none` when it raises. -/
structure Env (α : Type) where
  embed : String → List α
  parseLit : String → Option PyVal
  floatParse : String → Option ℚ

/-! ## Profile normalizer -/

/-- `try_parse_maybe_string` (functions.py:216-231): a string that is
stripped-nonempty, starts with `{`/`[` and ends with `}`/`]` goes through
the literal parsers; on failure (or for any other value) the original
value is returned. -/
def try_parse_maybe_string {α : Type} (env : Env α) (v : PyVal) : PyVal :=
  match v with
  | .str s =>
    let t := strTrim s
    if t = "" then v
    else
      match t.toList.head?, t.toList.getLast? with
      | Option.some c0, Option.some cl =>
        if (c0 = '\x7b' ∨ c0 = '[') ∧ (cl = '\x7d' ∨ cl = ']') then
          match env.parseLit t with
          | Option.some p => p
          | Option.none => v
        else v
      | _, _ => v
  | _ => v

/-- The `for nk in ("profile","person","candidate")` unwrap loop of
`extract_profiles_from_blob`: the first of those keys holding a dict wins,
else the record itself is kept (the `for…else` branch). -/
def unwrapNested (r2 : List (String × PyVal)) : List (String × PyVal) :=
  match ["profile", "person", "candidate"].findSome? (fun nk =>
      match dictGet? r2 nk with
      | Option.some (.dict d) => Option.some d
      | _ => Option.none) with
  | Option.some d => d
  | Option.none => r2

/-- The top-level key merge of the `"result"` branch: for
`url`,`candidate_id`,`profile_url`,`id` in order, copy the wrapper's
binding into the inner record when the key is present outside and absent
inside. -/
def mergeTop (blob inner : List (String × PyVal)) : List (String × PyVal) :=
  ["url", "candidate_id", "profile_url", "id"].foldl
    (fun acc k =>
      if dictHas blob k ∧ ¬ dictHas acc k then dictSet acc k (dictGetD blob k) else acc)
    inner

/-- `extract_profiles_from_blob` (functions.py:233-271). Every value the
Python function appends to `profiles` is a dict, so the model returns the
binding lists directly. -/
def extract_profiles_from_blob {α : Type} (env : Env α) (blob : PyVal) :
    List (List (String × PyVal)) :=
  match blob with
  | .dict kvs =>
    match dictGet? kvs "results" with
    | Option.some (.list rs) =>
      rs.filterMap fun r =>
        match try_parse_maybe_string env r with
        | .dict r2 => Option.some (unwrapNested r2)
        | _ => Option.none
    | _ =>
      match dictGet? kvs "result" with
      | Option.some rv =>
        match try_parse_maybe_string env rv with
        | .dict ikvs => [mergeTop kvs ikvs]
        | _ => [kvs]
      | Option.none => [kvs]
  | .list xs =>
    xs.filterMap fun it =>
      match try_parse_maybe_string env it with
      | .dict d => Option.some d
      | _ => Option.none
  | _ =>
    match try_parse_maybe_string env blob with
    | .dict d => [d]
    | _ => []

/-- `isinstance(v, (int, float, str))` (`bool` is an `int` subclass). -/
def PyVal.isScalar : PyVal → Bool
  | .num _ => true
  | .str _ => true
  | .bool _ => true
  | _ => false

/-- `flatten_skills` (functions.py:115-133). -/
def flatten_skills (sk : PyVal) : String :=
  if ¬ sk.truthy then ""
  else
    match sk with
    | .list xs => strJoin " ; " (xs.map pyStr)
    | .dict kvs =>
      if kvs.all (fun kv => kv.2.isScalar) then
        strJoin " ; " (kvs.map fun kv => kv.1 ++ ":" ++ pyStr kv.2)
      else
        strJoin " ; " (kvs.foldl (fun out kv =>
          match kv.2 with
          | .list vs => out ++ vs.map pyStr
          | v => out ++ [pyStr v]) [])
    | v => pyStr v

/-- `isinstance(v, (list, dict, str))`. -/
def PyVal.isListDictStr : PyVal → Bool
  | .list _ => true
  | .dict _ => true
  | .str _ => true
  | _ => false

/-- `p.strip()` applied inside the line-join comprehensions. The
comprehensions filter for truthiness first; a truthy non-string field
value would raise `AttributeError` in Python and is modelled by `str()`
coercion before stripping. -/
def pyStrip (v : PyVal) : String := strTrim (pyStr v)

/-- One entry of the experience list (functions.py:63-79): dict entries
render as a pipe-joined line of the non-falsy alias fields, strings are
stripped and kept when nonempty, anything else is `str()`ed. -/
def expEntryLine (e : PyVal) : List String :=
  match e with
  | .dict _ =>
    let role := pyOr (get_field e ["role", "title", "position", "job_title"] .none) (.str "")
    let company := pyOr (get_field e ["company", "employer", "organisation", "organization"] .none) (.str "")
    let period := pyOr (get_field e ["start_end", "duration", "dates", "date"] .none) (.str "")
    let skills := pyOr (get_field e ["skills", "keywords", "stack", "technologies"] .none) (.str "")
    let desc := pyOr (get_field e ["description", "summary", "details", "about"] .none) (.str "")
    let location := pyOr (get_field e ["location", "place"] .none) (.str "")
    let seg := strJoin " | "
      (([role, company, period, location, skills, desc].filter PyVal.truthy).map pyStrip)
    if seg ≠ "" then [seg] else []
  | .str s => if strTrim s ≠ "" then [strTrim s] else []
  | e => [pyStr e]

/-- `flatten_experience_items` (functions.py:38-83), fuelled for the
recursive dict-of-values case; fuel `sizeOf` always suffices. -/
def flattenExpFuel : ℕ → PyVal → List String
  | 0, _ => []
  | fuel + 1, v =>
    if ¬ v.truthy then []
    else
      match v with
      | .dict kvs =>
        let maybe := pyOr (dictGetD kvs "items") (pyOr (dictGetD kvs "positions") (dictGetD kvs "roles"))
        if maybe.truthy then flattenExpFuel fuel maybe
        else (kvs.map (·.2)).foldl
          (fun out w => if w.isListDictStr then out ++ flattenExpFuel fuel w else out) []
      | .list xs => xs.foldl (fun out e => out ++ expEntryLine e) []
      | v => [pyStr v]

def flatten_experience_items (v : PyVal) : List String :=
  flattenExpFuel v.size v

/-- One education record (functions.py:99-112): dict records render as a
pipe-joined line (appended only when nonempty), strings are stripped and
always appended, anything else is `str()`ed. -/
def eduEntryLine (e : PyVal) : List String :=
  match e with
  | .dict _ =>
    let inst := pyOr (get_field e ["institution", "school", "college", "university"] (.str "")) (.str "")
    let fld := pyOr (get_field e ["field_of_study", "major", "degree"] (.str "")) (.str "")
    let period := pyOr (get_field e ["start_end", "dates", "duration"] .none) (.str "")
    let grade := pyOr (get_field e ["grade", "score", "gpa"] .none) (.str "")
    let desc := pyOr (get_field e ["description", "notes", "summary"] .none) (.str "")
    let seg := strJoin " | "
      (([inst, fld, period, grade, desc].filter PyVal.truthy).map pyStrip)
    if seg ≠ "" then [seg] else []
  | .str s => [strTrim s]
  | e => [pyStr e]

/-- `flatten_education` (functions.py:85-113), fuelled like the
experience flattener. Iterating a string iterates its characters (Python
semantics); iterating a number/bool would raise `TypeError` and yields
`""` in the model. -/
def flattenEduFuel : ℕ → PyVal → String
  | 0, _ => ""
  | fuel + 1, v =>
    if ¬ v.truthy then ""
    else
      match v with
      | .dict kvs =>
        let maybe := pyOr (dictGetD kvs "items") (pyOr (dictGetD kvs "degrees") (dictGetD kvs "education"))
        if maybe.truthy then flattenEduFuel fuel maybe
        else strJoin " \n " (eduEntryLine (.dict kvs))
      | .list xs =>
        strJoin " \n " (xs.foldl (fun parts e => parts ++ eduEntryLine e) [])
      | .str s =>
        strJoin " \n "
          (s.toList.foldl (fun parts c => parts ++ eduEntryLine (.str (String.mk [c]))) [])
      | _ => ""

def flatten_education (v : PyVal) : String :=
  flattenEduFuel v.size v

/-- `max(0.0, min(2.0, lvl))`. -/
def clamp02 (q : ℚ) : ℚ := max 0 (min 2 q)

/-- The textual proficiency table of the list-of-dicts branch
(functions.py:148). -/
def levelTableA : List (String × ℚ) :=
  [("native", 2), ("mother tongue", 2), ("fluent", 2), ("advanced", 2),
   ("intermediate", 1), ("basic", 0)]

/-- The textual proficiency table of the string and dict branches
(functions.py:161,170) — without "mother tongue". -/
def levelTableB : List (String × ℚ) :=
  [("native", 2), ("fluent", 2), ("advanced", 2), ("intermediate", 1), ("basic", 0)]

/-- `mp.get(key, 1.0)`. -/
def tableGet (table : List (String × ℚ)) (key : String) : ℚ :=
  ((table.find? (fun kv => kv.1 = key)).map (·.2)).getD 1

/-- Python `float(v)` on an arbitrary value (`None`/containers raise,
modelled as `none`). -/
def pyFloat? {α : Type} (env : Env α) : PyVal → Option ℚ
  | .num q => Option.some q
  | .bool b => Option.some (if b then 1 else 0)
  | .str s => env.floatParse s
  | _ => Option.none

/-- `parse_languages` (functions.py:135-180), producing
`(language, level)` pairs with levels clamped to `[0,2]`. -/
def parse_languages {α : Type} (env : Env α) (v : PyVal) : List (String × ℚ) :=
  if ¬ v.truthy then []
  else
    match v with
    | .list items =>
      items.foldl (fun out it =>
        match it with
        | .dict _ =>
          let name := pyOr (get_field it ["language", "name"] (.str "")) (.str "")
          let lvlV := get_field it ["level", "proficiency"] (.num 0)
          let lvl : ℚ :=
            match pyFloat? env lvlV with
            | Option.some q => q
            | Option.none => tableGet levelTableA (strLower (pyStr lvlV))
          out ++ [(strTrim (pyStr name), clamp02 lvl)]
        | .str s =>
          let pr := splitFirstAny [':', '-', '–'] s
          let name := strTrim pr.1
          let lvl : ℚ :=
            match pr.2 with
            | Option.some p1 =>
              match env.floatParse (strTrim p1) with
              | Option.some q => q
              | Option.none => tableGet levelTableB (strLower (strTrim p1))
            | Option.none => 1
          out ++ [(name, clamp02 lvl)]
        | _ => out) []
    | .dict kvs =>
      kvs.foldl (fun out kv =>
        let lv : ℚ :=
          match pyFloat? env kv.2 with
          | Option.some q => q
          | Option.none => tableGet levelTableB (strLower (pyStr kv.2))
        out ++ [(strTrim kv.1, clamp02 lv)]) []
    | .str s =>
      (splitAny [',', '|', ';'] s).foldl (fun out lang =>
        let ln := strTrim lang
        if ln ≠ "" then out ++ [(ln, 1)] else out) []
    | _ => []

/-- `CandidateScorer._extract_candidate_id` (functions.py:293-302): the
id-like aliases are tried first, then the url-like aliases, finally the
filename stem; each `_get_field` result is used only when truthy
(`if cid:` / `if url:`). -/
def extract_candidate_id (profile : PyVal) (path : String) : String :=
  let cid := get_field profile ["id", "candidate_id", "profile_id", "uid", "user_id"] .none
  if cid.truthy then pyStr cid
  else
    let url := get_field profile ["url", "linkedin", "linkedin_url", "profile_url"] .none
    if url.truthy then pyStr url
    else stem path

/-! ## Generic assoc-list helpers (Python dict operations) -/

def alistGet? {β : Type} (l : List (String × β)) (k : String) : Option β :=
  (l.find? (fun p => p.1 = k)).map (·.2)

def alistGetD {β : Type} (l : List (String × β)) (k : String) (d : β) : β :=
  (alistGet? l k).getD d

/-- `d[k] = v`: replace the first binding in place, else append (Python
dicts keep the original insertion position on overwrite). -/
def alistSet {β : Type} : List (String × β) → String → β → List (String × β)
  | [], k, v => [(k, v)]
  | p :: rest, k, v => if p.1 = k then (k, v) :: rest else p :: alistSet rest k v

/-! ## Section index -/

/-- The metadata dict attached to one stored vector (`skills_meta` /
`exp_meta` / `edu_meta` entries of `add_profiles`); `item_idx` is only
set for experience entries. -/
structure MetaEntry where
  candidate_id : String
  sectionName : String
  excerpt : String
  origin : String
  item_idx : Option ℕ
deriving DecidableEq

/-- The `{}` default of `id_to_meta.get(int(idx), {})`: its
`.get("candidate_id")` is `None`, which downstream consumers skip exactly
like the empty string. -/
def MetaEntry.blank : MetaEntry := ⟨"", "", "", "", Option.none⟩

/-- `SectionIndex` (functions.py:183-212): a faiss `IndexIDMap` over
`IndexFlatIP` (modelled as the list of `(id, vector)` pairs in insertion
order), the `id_to_meta` dict and the `next_id` counter. -/
structure SectionIndex (α : Type) where
  entries : List (ℕ × List α)
  id_to_meta : List (ℕ × MetaEntry)
  next_id : ℕ

def SectionIndex.empty (α : Type) : SectionIndex α := ⟨[], [], 0⟩

/-- `id_to_meta[id] = m` (integer-keyed dict assignment). -/
def metaSet : List (ℕ × MetaEntry) → ℕ → MetaEntry → List (ℕ × MetaEntry)
  | [], k, m => [(k, m)]
  | p :: rest, k, m => if p.1 = k then (k, m) :: rest else p :: metaSet rest k m

/-- `SectionIndex.add` (functions.py:190-200): no-op returning 0 on an
empty batch, else assign ids `next_id … next_id+n-1`, append the vectors,
record the metadata and advance the counter. `metas[i]` indexing is
modelled by `zip`; Python raises `IndexError` when `metas` is shorter
than the batch, a case excluded by the documented precondition
`vectors.length == metadatas.length`. -/
def SectionIndex.add {α : Type} (st : SectionIndex α) (embeddings : List (List α))
    (metas : List MetaEntry) : SectionIndex α × ℕ :=
  let n := embeddings.length
  if n = 0 then (st, 0)
  else
    let ids := List.range' st.next_id n
    ({ entries := st.entries ++ ids.zip embeddings,
       id_to_meta := (ids.zip metas).foldl (fun l p => metaSet l p.1 p.2) st.id_to_meta,
       next_id := st.next_id + n }, n)

def innerProd {α : Type} [LinearOrderedField α] (u v : List α) : α :=
  (u.zipWith (· * ·) v).sum

/-- The faiss `IndexFlatIP.search` contract for one query: all stored
entries ranked by descending inner product, truncated to `top_k`, and
missing slots padded with id `-1` (faiss fills unused result slots with
`-1`). -/
def faissSearch {α : Type} [LinearOrderedField α] (entries : List (ℕ × List α))
    (q : List α) (topk : ℕ) : List (α × ℤ) :=
  let scored := entries.map (fun e => (innerProd q e.2, (e.1 : ℤ)))
  let sorted := scored.insertionSort (fun a b => b.1 ≤ a.1)
  sorted.take topk ++ List.replicate (topk - sorted.length) ((0 : α), (-1 : ℤ))

/-- One element of the `results` list of `SectionIndex.search`. -/
structure Hit (α : Type) where
  score : α
  meta : MetaEntry
deriving DecidableEq

def metaLookup (l : List (ℕ × MetaEntry)) (k : ℕ) : MetaEntry :=
  ((l.find? (fun p => p.1 = k)).map (·.2)).getD MetaEntry.blank

/-- `SectionIndex.search` (functions.py:202-212): empty list on an empty
index; otherwise the faiss results with negative ids skipped and ids
resolved through `id_to_meta` (default `{}`). -/
def SectionIndex.search {α : Type} [LinearOrderedField α] (st : SectionIndex α)
    (q : List α) (topk : ℕ) : List (Hit α) :=
  if st.entries.length = 0 then []
  else
    (faissSearch st.entries q topk).filterMap fun di =>
      if di.2 < 0 then Option.none
      else Option.some ⟨di.1, metaLookup st.id_to_meta di.2.toNat⟩

/-! ## Candidate scorer -/

/-- `CandidateScorer` state (functions.py:274-284). The constructor
performs no validation of `exp_agg_mode`: any string is stored. -/
structure ScorerState (α : Type) where
  skills_idx : SectionIndex α
  exp_idx : SectionIndex α
  edu_idx : SectionIndex α
  profiles : List (String × PyVal)
  exp_agg_mode : String

/-- `CandidateScorer.__init__` (model/batch setup aside). -/
def mkScorer (α : Type) (exp_agg_mode : String) : ScorerState α :=
  ⟨SectionIndex.empty α, SectionIndex.empty α, SectionIndex.empty α, [], exp_agg_mode⟩

/-- `max(0.0, min(1.0, x))`, the clamp applied by every scoring path. -/
def clamp01 {α : Type} [LinearOrderedField α] (x : α) : α := max 0 (min 1 x)

/-- The per-candidate aggregation of `_compute_experience_scores`
(functions.py:455-465). `lognat n` stands for `math.log(1.0 + n)`; the
real engine instantiates it with `Real.log (1 + n)` (see `logn`). Any
mode other than `"sum"`/`"mean"` silently falls into the `sum_norm`
branch (the `else` comment in the source). -/
def expAggregate {α : Type} [LinearOrderedField α] (lognat : ℕ → α) (mode : String)
    (scores : List α) : α :=
  let n := scores.length
  let ssum := scores.sum
  let agg : α :=
    if mode = "sum" then ssum
    else if mode = "mean" then (if 0 < n then ssum / (n : α) else 0)
    else ssum / (1 + lognat n)
  clamp01 agg

/-- `per_candidate_entries.setdefault(cid, []).append(sc)`. -/
def appendScore {α : Type} : List (String × List α) → String → α → List (String × List α)
  | [], cid, sc => [(cid, [sc])]
  | p :: rest, cid, sc =>
    if p.1 = cid then (p.1, p.2 ++ [sc]) :: rest else p :: appendScore rest cid sc

/-- The grouping loop of `_compute_experience_scores` (functions.py:447-453):
hits with a falsy candidate id are skipped. -/
def groupByCid {α : Type} (hits : List (Hit α)) : List (String × List α) :=
  hits.foldl (fun acc h =>
    if h.meta.candidate_id = "" then acc
    else appendScore acc h.meta.candidate_id h.score) []

/-- `_compute_experience_scores` (functions.py:443-466). -/
def compute_experience_scores {α : Type} [LinearOrderedField α] (env : Env α)
    (lognat : ℕ → α) (st : ScorerState α) (jobText : String) (topk : ℕ) :
    List (String × α) :=
  let q := env.embed (normalize_text jobText)
  let results := st.exp_idx.search q topk
  (groupByCid results).map (fun g => (g.1, expAggregate lognat st.exp_agg_mode g.2))

/-- `_compute_section_best` (functions.py:468-480): per candidate the
maximum similarity (starting from the 0.0 default), then a final clamp. -/
def compute_section_best {α : Type} [LinearOrderedField α] (env : Env α)
    (idx : SectionIndex α) (jobText : String) (topk : ℕ) : List (String × α) :=
  let q := env.embed (normalize_text jobText)
  let results := idx.search q topk
  let by_cand := results.foldl (fun acc h =>
    if h.meta.candidate_id = "" then acc
    else alistSet acc h.meta.candidate_id (max (alistGetD acc h.meta.candidate_id 0) h.score)) []
  by_cand.map (fun p => (p.1, clamp01 p.2))

/-- `_language_score` (functions.py:482-494): full `level` credit when the
lower-cased name is a substring of the normalized lower-cased job text and
the name is nonempty (`name and name in jt`), else half credit; divided by
`2 * len(langs)` and clamped. -/
def language_score {α : Type} [LinearOrderedField α] (env : Env α) (profile : PyVal)
    (jobText : String) : α :=
  let langs := parse_languages env (get_field profile ["languages", "language", "langs"] (.list []))
  if langs.isEmpty then 0
  else
    let jt := strLower (normalize_text jobText)
    let raw : α := (langs.map (fun l =>
      let name := strLower l.1
      let lvl : α := (l.2 : α)
      if name ≠ "" ∧ substrB name jt then lvl else (1 / 2) * lvl)).sum
    let denom : α := 2 * (langs.length : α)
    if 0 < denom then clamp01 (raw / denom) else 0

/-- `DEFAULT_WEIGHTS` (functions.py:20); the decimal float literals are
idealised as exact rationals. Note they sum to 1.1, which the
normalization in `score` rescales to 1. -/
def DEFAULT_WEIGHTS (α : Type) [LinearOrderedField α] : List (String × α) :=
  [("experience", 2 / 5), ("skills", 2 / 5), ("education", 1 / 5), ("languages", 1 / 10)]

/-- One ranked result of `score` (the `breakdown` dict is flattened into
the four component fields). -/
structure ScoreItem (α : Type) where
  candidate_id : String
  score : α
  experience : α
  skills : α
  education : α
  languages : α
deriving DecidableEq

/-- `CandidateScorer.score` (functions.py:496-519). The `Except.error`
case models the `ZeroDivisionError` of `float(v)/s`: it is raised exactly
when the weight dict is nonempty with zero-sum values (an empty dict runs
the comprehension zero times, so no division happens and `norm_w` is
empty). -/
def score {α : Type} [LinearOrderedField α] (env : Env α) (lognat : ℕ → α)
    (st : ScorerState α) (jobText : String) (weights : Option (List (String × α)))
    (topk : ℕ) : Except Unit (List (ScoreItem α)) :=
  let w := weights.getD (DEFAULT_WEIGHTS α)
  let s := (w.map (·.2)).sum
  if ¬ w.isEmpty ∧ s = 0 then .error ()
  else
    let norm_w := w.map (fun kv => (kv.1, kv.2 / s))
    let exp_scores := compute_experience_scores env lognat st jobText topk
    let skills_scores := compute_section_best env st.skills_idx jobText topk
    let edu_scores := compute_section_best env st.edu_idx jobText topk
    let out := st.profiles.map (fun p =>
      let se := alistGetD exp_scores p.1 0
      let ss := alistGetD skills_scores p.1 0
      let sedu := alistGetD edu_scores p.1 0
      let lscore := language_score env p.2 jobText
      let total := alistGetD norm_w "experience" 0 * se + alistGetD norm_w "skills" 0 * ss +
                   alistGetD norm_w "education" 0 * sedu + alistGetD norm_w "languages" 0 * lscore
      ⟨p.1, total, se, ss, sedu, lscore⟩)
    .ok (out.insertionSort (fun a b => b.score ≤ a.score))

/-- `math.log(1.0 + n)` — the denominator offset of the `sum_norm`
aggregation as the engine actually computes it. -/
noncomputable def logn (n : ℕ) : ℝ := Real.log (1 + (n : ℝ))

/-! ## Server-side request validation (server.py) -/

def knownKeys : List String := ["experience", "skills", "education", "languages"]

def allowedAggModes : List String := ["sum", "mean", "sum_norm"]

/-- `LoadProfilesRequest._check_agg` (server.py:25-30): unknown modes are
rejected with a `ValueError` naming `exp_agg` (the error payload is
modelled by the field name). -/
def validate_exp_agg (v : String) : Except String String :=
  if v ∈ allowedAggModes then .ok v
  else .error "exp_agg must be one of sum, mean, sum_norm"

/-- The pydantic bounds of `ScoreRequest.top_k_search`
(`Field(200, ge=1, le=5000)`, server.py:36): non-positive (in particular
negative) and oversized values are rejected naming the field. -/
def validate_top_k_search (k : ℤ) : Except String ℤ :=
  if 1 ≤ k ∧ k ≤ 5000 then .ok k
  else .error "top_k_search must be between 1 and 5000"

/-- `ScoreRequest._normalize_weights` (server.py:38-46): keep only the
four known keys (tried in canonical order), `None` when nothing is left. -/
def clean_weights {α : Type} (w : List (String × α)) : Option (List (String × α)) :=
  let cleaned := knownKeys.filterMap (fun k => (alistGet? w k).map (fun v => (k, v)))
  if cleaned.isEmpty then Option.none else Option.some cleaned

/-- The `/scorer_tool/score` endpoint (server.py:109-122): 400 when no
profiles are indexed, else `score` on the validator-cleaned weights
(`DEFAULT_WEIGHTS` when the request carries none). -/
def server_score {α : Type} [LinearOrderedField α] (env : Env α) (lognat : ℕ → α)
    (st : ScorerState α) (jobText : String) (weights : Option (List (String × α)))
    (topk : ℕ) : Except Unit (List (ScoreItem α)) :=
  if st.profiles.isEmpty then .error ()
  else score env lognat st jobText (weights.bind clean_weights) topk

/-! ## Ingestion (`add_profiles`)

`add_profiles` (functions.py:305-440) runs one extraction pass over the
input files, commits the skills/experience vectors, and — only inside the
`if edu_texts:` branch — commits the education vectors and then runs a
complete second ingestion pass that re-reads every file and treats its raw
JSON value directly as one profile. A file is `(path, parsed-JSON)`;
`Option.none` stands for a `json.load` failure (warned and skipped). -/

/-- The accumulator lists of one ingestion pass: profile-store assignments
in order, and texts/metadata per section. -/
structure FileOut where
  profs : List (String × PyVal)
  skT : List String
  skM : List MetaEntry
  exT : List String
  exM : List MetaEntry
  edT : List String
  edM : List MetaEntry

def FileOut.empty : FileOut := ⟨[], [], [], [], [], [], []⟩

def FileOut.append (a b : FileOut) : FileOut :=
  ⟨a.profs ++ b.profs, a.skT ++ b.skT, a.skM ++ b.skM, a.exT ++ b.exT,
   a.exM ++ b.exM, a.edT ++ b.edT, a.edM ++ b.edM⟩

/-- The skills fallback loop (functions.py:342-346 and 400-406): first
string value of length `> 10` among the given keys. -/
def firstLongStr (profile : PyVal) (keysL : List String) : Option String :=
  keysL.findSome? fun k =>
    match pyGetD profile k with
    | .str c => if 10 < c.length then Option.some c else Option.none
    | _ => Option.none

/-- First-pass processing of one extracted profile dict
(functions.py:328-367). `about + "\n" + sk_txt` and the `about in sk_txt`
test are modelled through `pyStr` (a truthy non-string `about` would raise
`TypeError` in Python). -/
def processBlob1 (path : String) (d : List (String × PyVal)) : FileOut :=
  let profile := PyVal.dict d
  let cid := extract_candidate_id profile path
  let about := pyOr (dictGetD d "summary")
    (pyOr (dictGetD d "about") (pyOr (dictGetD d "headline") (.str "")))
  let sk_src := pyOr (dictGetD d "skills") (pyOr (dictGetD d "skill")
    (pyOr (dictGetD d "skill_set") (pyOr (dictGetD d "keywords") (dictGetD d "skills_list"))))
  let sk_txt := if ¬ sk_src.isNone then flatten_skills sk_src else ""
  let sk_txt := if sk_txt = "" then
      (firstLongStr profile ["summary", "about", "description", "details"]).getD sk_txt
    else sk_txt
  let sk_txt := if about.truthy ∧ ¬ substrB (pyStr about) sk_txt then
      (if sk_txt ≠ "" then pyStr about ++ "\n" ++ sk_txt else pyStr about)
    else sk_txt
  let skOut : List String × List MetaEntry := if sk_txt ≠ "" then
      ([normalize_text sk_txt], [⟨cid, "skills", strTake sk_txt 300, path, Option.none⟩])
    else ([], [])
  let exp_src := pyOr (dictGetD d "experience") (pyOr (dictGetD d "work_experience")
    (pyOr (dictGetD d "positions") (pyOr (dictGetD d "jobs") (.list []))))
  let exp_items := flatten_experience_items (pyOr exp_src (.list []))
  let exT := exp_items.map normalize_text
  let exM := exp_items.enum.map
    (fun p => (⟨cid, "experience", strTake p.2 300, path, Option.some p.1⟩ : MetaEntry))
  let edu_src := pyOr (dictGetD d "education")
    (pyOr (dictGetD d "studies") (pyOr (dictGetD d "education_history") (.list [])))
  let edu_txt := flatten_education (pyOr edu_src (.list []))
  let edOut : List String × List MetaEntry := if edu_txt ≠ "" then
      ([normalize_text edu_txt], [⟨cid, "education", strTake edu_txt 300, path, Option.none⟩])
    else ([], [])
  ⟨[(cid, profile)], skOut.1, skOut.2, exT, exM, edOut.1, edOut.2⟩

/-- First-pass processing of one file (functions.py:310-367): parse
failures and files yielding no profile objects are skipped; a file whose
blob extraction is empty falls back to `try_parse_maybe_string` provided
the result is a dict. -/
def processFile1 {α : Type} (env : Env α) (file : String × Option PyVal) : FileOut :=
  match file.2 with
  | Option.none => FileOut.empty
  | Option.some raw =>
    let blobs := extract_profiles_from_blob env raw
    let blobs := if blobs.isEmpty then
        (match try_parse_maybe_string env raw with
         | .dict d => [d]
         | _ => [])
      else blobs
    (blobs.map (processBlob1 file.1)).foldl FileOut.append FileOut.empty

/-- Second-pass processing of one file (functions.py:383-430): the raw
JSON value is used directly as the profile (no wrapper unwrapping), the
candidate store receives the raw value, and the alias lookups go through
`_get_field`. `profile.get(...)` in the skills fallback raises
`AttributeError` for a non-dict raw value in Python; the model resolves it
to `None` (the claims about this pass assume dict-valued files). -/
def processFile2 (file : String × Option PyVal) : FileOut :=
  match file.2 with
  | Option.none => FileOut.empty
  | Option.some raw =>
    let cid := extract_candidate_id raw file.1
    let about := pyOr (get_field raw ["summary", "about", "headline"] (.str "")) (.str "")
    let sk_txt := match get_field? raw ["skills", "skill", "skill_set", "keywords", "skills_list"] with
      | Option.some v => flatten_skills v
      | Option.none => ""
    let sk_txt := if sk_txt = "" then
        (firstLongStr raw ["skills", "summary", "about", "description", "details"]).getD sk_txt
      else sk_txt
    let sk_txt := if about.truthy ∧ ¬ substrB (pyStr about) sk_txt then
        (if sk_txt ≠ "" then pyStr about ++ " \n " ++ sk_txt else pyStr about)
      else sk_txt
    let skOut : List String × List MetaEntry := if sk_txt ≠ "" then
        ([normalize_text sk_txt], [⟨cid, "skills", strTake sk_txt 300, file.1, Option.none⟩])
      else ([], [])
    let exp_src := get_field raw ["experience", "work_experience", "positions", "jobs"] (.list [])
    let exp_items := flatten_experience_items (pyOr exp_src (.list []))
    let exT := exp_items.map normalize_text
    let exM := exp_items.enum.map
      (fun p => (⟨cid, "experience", strTake p.2 300, file.1, Option.some p.1⟩ : MetaEntry))
    let edu_src := get_field raw ["education", "studies", "education_history"] (.list [])
    let edu_txt := flatten_education (pyOr edu_src (.list []))
    let edOut : List String × List MetaEntry := if edu_txt ≠ "" then
        ([normalize_text edu_txt], [⟨cid, "education", strTake edu_txt 300, file.1, Option.none⟩])
      else ([], [])
    ⟨[(cid, raw)], skOut.1, skOut.2, exT, exM, edOut.1, edOut.2⟩

/-- The concatenated accumulators of one pass over all files (the Python
loop only ever appends to its accumulator lists). -/
def passAcc (process : String × Option PyVal → FileOut)
    (files : List (String × Option PyVal)) : FileOut :=
  (files.map process).foldl FileOut.append FileOut.empty

/-- Apply a pass's profile-store assignments in loop order. -/
def applyProfs (m : List (String × PyVal)) (profs : List (String × PyVal)) :
    List (String × PyVal) :=
  profs.foldl (fun acc p => alistSet acc p.1 p.2) m

/-- `CandidateScorer.add_profiles` (functions.py:305-440), including the
second full ingestion pass nested inside the `if edu_texts:` branch. -/
def add_profiles {α : Type} (env : Env α) (st : ScorerState α)
    (files : List (String × Option PyVal)) : ScorerState α :=
  let a1 := passAcc (processFile1 env) files
  let st := { st with profiles := applyProfs st.profiles a1.profs }
  let st := if ¬ a1.skT.isEmpty then
      { st with skills_idx := (st.skills_idx.add (a1.skT.map env.embed) a1.skM).1 } else st
  let st := if ¬ a1.exT.isEmpty then
      { st with exp_idx := (st.exp_idx.add (a1.exT.map env.embed) a1.exM).1 } else st
  if a1.edT.isEmpty then st
  else
    let st := { st with edu_idx := (st.edu_idx.add (a1.edT.map env.embed) a1.edM).1 }
    let a2 := passAcc processFile2 files
    let st := { st with profiles := applyProfs st.profiles a2.profs }
    let st := if ¬ a2.skT.isEmpty then
        { st with skills_idx := (st.skills_idx.add (a2.skT.map env.embed) a2.skM).1 } else st
    let st := if ¬ a2.exT.isEmpty then
        { st with exp_idx := (st.exp_idx.add (a2.exT.map env.embed) a2.exM).1 } else st
    if ¬ a2.edT.isEmpty then
      { st with edu_idx := (st.edu_idx.add (a2.edT.map env.embed) a2.edM).1 }
    else st

/-! ## Definitions used by the claim statements -/

/-- The well-formedness invariant of a section index: the faiss store and
the metadata dict hold exactly the contiguous ids `0 … next_id-1`, in
insertion order. -/
def IndexWF {α : Type} (st : SectionIndex α) : Prop :=
  st.entries.map (·.1) = List.range' 0 st.next_id ∧
  st.id_to_meta.map (·.1) = List.range' 0 st.next_id

/-- An index built from the empty one by a sequence of `add` calls. -/
def buildIndex (α : Type) (batches : List (List (List α) × List MetaEntry)) :
    SectionIndex α :=
  batches.foldl (fun st b => (st.add b.1 b.2).1) (SectionIndex.empty α)

/-- Remove the first binding of a key (proof helper for weight sums). -/
def alistErase {β : Type} : List (String × β) → String → List (String × β)
  | [], _ => []
  | p :: rest, k => if p.1 = k then rest else p :: alistErase rest k

/-- The identity-resolution rule as the specification claim words it: the
first *present non-null* value among the nine alias fields (in order) is
stringified, else the filename stem. (The code additionally requires the
value to be truthy; compare `extract_candidate_id`.) -/
def extract_candidate_id_claim (profile : PyVal) (path : String) : String :=
  match get_field? profile
      ["id", "candidate_id", "profile_id", "uid", "user_id",
       "url", "linkedin", "linkedin_url", "profile_url"] with
  | Option.some v => pyStr v
  | Option.none => stem path

/-- The language-score formula as the specification claim words it: full
credit whenever the lower-cased name occurs as a substring of the
normalized lower-cased job text — including the empty name, which is a
substring of everything. (The code additionally requires the name to be
nonempty; compare `language_score`.) -/
def language_score_claim {α : Type} [LinearOrderedField α] (env : Env α) (profile : PyVal)
    (jobText : String) : α :=
  let langs := parse_languages env (get_field profile ["languages", "language", "langs"] (.list []))
  if langs.isEmpty then 0
  else clamp01 ((langs.map (fun l =>
      if substrB (strLower l.1) (strLower (normalize_text jobText)) then (l.2 : α)
      else (1 / 2) * (l.2 : α))).sum / (2 * (langs.length : α)))

/-- The language-score formula amended to match the code: full credit
requires the name to be nonempty besides occurring in the job text. -/
def language_score_amended {α : Type} [LinearOrderedField α] (env : Env α) (profile : PyVal)
    (jobText : String) : α :=
  let langs := parse_languages env (get_field profile ["languages", "language", "langs"] (.list []))
  if langs.isEmpty then 0
  else clamp01 ((langs.map (fun l =>
      if strLower l.1 ≠ "" ∧ substrB (strLower l.1) (strLower (normalize_text jobText)) then (l.2 : α)
      else (1 / 2) * (l.2 : α))).sum / (2 * (langs.length : α)))

/-- A concrete executable environment for witnesses: the embedder returns
the empty vector and both external parsers fail on every input. On every
input actually exercised by the concrete witnesses below this matches the
Python behaviour (e.g. `float("native")` raises `ValueError`). -/
def envQ : Env ℚ := ⟨fun _ => [], fun _ => Option.none, fun _ => Option.none⟩

/-- The same trivial environment at `ℝ`. -/
noncomputable def envR : Env ℝ := ⟨fun _ => [], fun _ => Option.none, fun _ => Option.none⟩

/-! ## Helper lemmas -/

theorem clamp01_nonneg {α : Type} [LinearOrderedField α] (x : α) : 0 ≤ clamp01 x :=
  le_max_left 0 _

theorem clamp01_le_one {α : Type} [LinearOrderedField α] (x : α) : clamp01 x ≤ 1 :=
  max_le zero_le_one (min_le_left 1 x)

theorem clamp01_of_one_le {α : Type} [LinearOrderedField α] {x : α} (h : 1 ≤ x) :
    clamp01 x = 1 := by
  unfold clamp01
  rw [min_eq_left h, max_eq_right zero_le_one]

theorem clamp01_of_nonpos {α : Type} [LinearOrderedField α] {x : α} (h : x ≤ 0) :
    clamp01 x = 0 := by
  unfold clamp01
  rw [min_eq_right (h.trans zero_le_one), max_eq_left h]

theorem clamp01_eq_self {α : Type} [LinearOrderedField α] {x : α} (h0 : 0 ≤ x) (h1 : x ≤ 1) :
    clamp01 x = x := by
  unfold clamp01
  rw [min_eq_right h1, max_eq_right h0]

theorem clamp01_mono {α : Type} [LinearOrderedField α] {x y : α} (h : x ≤ y) :
    clamp01 x ≤ clamp01 y :=
  max_le_max le_rfl (min_le_min le_rfl h)

/-! ## Claim theorems -/

/-- C8 (corrected): the engine itself does not reject an unknown
aggregation mode — `CandidateScorer.__init__` stores any string and the
aggregation silently falls into the `sum_norm` branch for it, exactly as
for the mode `"sum_norm"` itself, so scores are computed under a
substituted mode with no validation error. -/
theorem claim_C8_counterexample :
    (mkScorer ℝ "sum_nrom").exp_agg_mode = "sum_nrom" ∧
    expAggregate logn "sum_nrom" [(1 : ℝ) / 2] = expAggregate logn "sum_norm" [(1 : ℝ) / 2] ∧
    validate_exp_agg "sum_nrom" = Except.error "exp_agg must be one of sum, mean, sum_norm" := by
  refine ⟨rfl, by simp [expAggregate], ?_⟩
  simp [validate_exp_agg, allowedAggModes]

/-- C8 (amended): invalid configuration is rejected at the HTTP boundary —
`LoadProfilesRequest` rejects unknown `exp_agg` values with a validation
error naming the field and `ScoreRequest` bounds `top_k_search` to
`[1, 5000]` — but the engine (`CandidateScorer`) performs no validation of
its own: any mode outside `sum`/`mean` is aggregated exactly like
`sum_norm`. -/
theorem claim_C8 {α : Type} [LinearOrderedField α] (m : String) (k : ℤ)
    (lognat : ℕ → α) (scores : List α) :
    (m ∉ allowedAggModes →
      validate_exp_agg m = Except.error "exp_agg must be one of sum, mean, sum_norm" ∧
      expAggregate lognat m scores = expAggregate lognat "sum_norm" scores) ∧
    (m ∈ allowedAggModes → validate_exp_agg m = Except.ok m) ∧
    ((k < 1 ∨ 5000 < k) → validate_top_k_search k = Except.error "top_k_search must be between 1 and 5000") := by
  refine ⟨fun hm => ⟨?_, ?_⟩, fun hm => ?_, fun hk => ?_⟩
  · simp [validate_exp_agg, hm]
  · have h1 : m ≠ "sum" := by
      intro h; exact hm (h ▸ by simp [allowedAggModes])
    have h2 : m ≠ "mean" := by
      intro h; exact hm (h ▸ by simp [allowedAggModes])
    simp [expAggregate, h1, h2]
  · simp [validate_exp_agg, hm]
  · have : ¬ (1 ≤ k ∧ k ≤ 5000) := by omega
    simp [validate_top_k_search, this]

/-- Witness for C8: the unknown mode `"total"` is rejected by the server
validator yet aggregates exactly like `sum_norm`, and `top_k_search = -3`
is rejected. -/
theorem claim_C8_witness :
    validate_exp_agg "total" = Except.error "exp_agg must be one of sum, mean, sum_norm" ∧
    expAggregate (fun _ => (0 : ℚ)) "total" [1] = expAggregate (fun _ => (0 : ℚ)) "sum_norm" [1] ∧
    validate_top_k_search (-3) = Except.error "top_k_search must be between 1 and 5000" := by
  have h := claim_C8 (α := ℚ) "total" (-3) (fun _ => 0) [1]
  exact ⟨(h.1 (by decide)).1, (h.1 (by decide)).2, h.2.2 (Or.inl (by norm_num))⟩

/-- C10 (corrected): an *empty* weights dict does not raise — the dict
comprehension performs no division at all, and scoring an engine with the
empty weight dict succeeds (here returning the empty ranking of an empty
store), even though the values sum to 0. -/
theorem claim_C10_counterexample :
    ((([] : List (String × ℝ)).map (·.2)).sum = 0) ∧
    score envR logn (mkScorer ℝ "sum_norm") "any job" (Option.some []) 200 = Except.ok [] := by
  refine ⟨by simp, ?_⟩
  simp [score, mkScorer]

/-- C10 (amended): `CandidateScorer.score` raises `ZeroDivisionError` from
the unguarded `float(v)/s` exactly when the supplied weights dict is
nonempty with values summing to 0 (for example all-zero weights); the
empty dict is the one zero-sum input that does not raise, because the
normalizing comprehension iterates zero times. -/
theorem claim_C10 {α : Type} [LinearOrderedField α] (env : Env α) (lognat : ℕ → α)
    (st : ScorerState α) (jobText : String) (w : List (String × α)) (topk : ℕ) :
    score env lognat st jobText (Option.some w) topk = Except.error () ↔
      w ≠ [] ∧ (w.map (·.2)).sum = 0 := by
  by_cases hc : ¬ w.isEmpty ∧ (w.map (·.2)).sum = 0
  · rw [score]
    simp only [Option.getD_some, if_pos hc]
    simpa using And.intro (by simpa using hc.1) hc.2
  · rw [score]
    simp only [Option.getD_some, if_neg hc]
    constructor
    · intro h; cases h
    · intro h
      exact absurd ⟨by simpa using h.1, h.2⟩ hc

/-- C2 (corrected): with three matching entries of similarity 1 each, both
the `sum_norm` and the `sum` policies clamp to 1, so equality of the two
aggregations holds with `n = 3 > 1`. -/
theorem claim_C2_counterexample :
    expAggregate logn "sum_norm" [(1 : ℝ), 1, 1] = expAggregate logn "sum" [(1 : ℝ), 1, 1] ∧
    ¬ ([(1 : ℝ), 1, 1].length ≤ 1) := by
  have hlog4 : Real.log 4 ≤ 2 := by
    have h2 : Real.log 2 < 0.6931471808 := Real.log_two_lt_d9
    have h4 : (4 : ℝ) = 2 ^ (2 : ℕ) := by norm_num
    rw [h4, Real.log_pow]
    push_cast
    nlinarith
  have hlog0 : 0 ≤ Real.log 4 := Real.log_nonneg (by norm_num)
  have hln : logn 3 = Real.log 4 := by
    unfold logn; norm_num
  constructor
  · have hs : expAggregate logn "sum" [(1 : ℝ), 1, 1] = clamp01 (3 : ℝ) := by
      simp [expAggregate]
      norm_num
    have hsn : expAggregate logn "sum_norm" [(1 : ℝ), 1, 1] =
        clamp01 ((3 : ℝ) / (1 + Real.log 4)) := by
      simp [expAggregate, hln]
      norm_num
    have hdpos : (0 : ℝ) < 1 + Real.log 4 := by linarith
    rw [hsn, hs, clamp01_of_one_le ((one_le_div hdpos).mpr (by linarith)),
      clamp01_of_one_le (by norm_num : (1 : ℝ) ≤ 3)]
  · simp

/-- C2 (amended): the `sum_norm` aggregation computes
`sum / (1 + ln(1 + n))` and clamps to `[0,1]`; it is always `≤` the
(clamped) `sum` policy on the same entries, and equality holds exactly
when the similarity sum is `≤ 0` or at least `1 + ln(1 + n)` (both ends
saturating the clamp) — not only when `n ≤ 1`. -/
theorem claim_C2 (scores : List ℝ) :
    expAggregate logn "sum_norm" scores = clamp01 (scores.sum / (1 + logn scores.length)) ∧
    expAggregate logn "sum_norm" scores ≤ expAggregate logn "sum" scores ∧
    (expAggregate logn "sum_norm" scores = expAggregate logn "sum" scores ↔
      scores.sum ≤ 0 ∨ 1 + logn scores.length ≤ scores.sum) := by
  have hdef : expAggregate logn "sum_norm" scores =
      clamp01 (scores.sum / (1 + logn scores.length)) := by
    simp [expAggregate]
  have hsum : expAggregate logn "sum" scores = clamp01 scores.sum := by
    simp [expAggregate]
  have hlog0 : 0 ≤ logn scores.length := by
    unfold logn
    refine Real.log_nonneg ?_
    have : (0 : ℝ) ≤ (scores.length : ℝ) := Nat.cast_nonneg _
    linarith
  have hd0 : (0 : ℝ) < 1 + logn scores.length := by linarith
  have hd1 : (1 : ℝ) ≤ 1 + logn scores.length := by linarith
  refine ⟨hdef, ?_, ?_⟩
  · rw [hdef, hsum]
    rcases le_or_lt scores.sum 0 with hs | hs
    · rw [clamp01_of_nonpos hs,
        clamp01_of_nonpos (div_nonpos_iff.mpr (Or.inr ⟨hs, hd0.le⟩))]
    · exact clamp01_mono (div_le_self hs.le hd1)
  · rw [hdef, hsum]
    constructor
    · intro heq
      by_contra hcon
      push_neg at hcon
      obtain ⟨h1, h2⟩ := hcon
      have hnil : scores ≠ [] := by
        intro h
        rw [h] at h1
        simp at h1
      have hn1 : 1 ≤ scores.length := List.length_pos.mpr hnil
      have hlogpos : 0 < logn scores.length := by
        unfold logn
        apply Real.log_pos
        have : (1 : ℝ) ≤ (scores.length : ℝ) := by exact_mod_cast hn1
        linarith
      have hlt1 : scores.sum / (1 + logn scores.length) < 1 :=
        (div_lt_one hd0).mpr h2
      have hlts : scores.sum / (1 + logn scores.length) < scores.sum :=
        div_lt_self h1 (by linarith)
      have hquot : clamp01 (scores.sum / (1 + logn scores.length)) =
          scores.sum / (1 + logn scores.length) :=
        clamp01_eq_self (div_nonneg h1.le hd0.le) hlt1.le
      have hcl : min 1 scores.sum ≤ clamp01 scores.sum := le_max_right _ _
      have : clamp01 scores.sum < clamp01 scores.sum := by
        calc clamp01 scores.sum = scores.sum / (1 + logn scores.length) := heq.symm.trans hquot
        _ < min 1 scores.sum := lt_min hlt1 hlts
        _ ≤ clamp01 scores.sum := hcl
      exact absurd this (lt_irrefl _)
    · rintro (hs | hds)
      · rw [clamp01_of_nonpos hs,
          clamp01_of_nonpos (div_nonpos_iff.mpr (Or.inr ⟨hs, hd0.le⟩))]
      · rw [clamp01_of_one_le (hd1.trans hds),
          clamp01_of_one_le ((one_le_div hd0).mpr hds)]

/-- C6 (corrected): a present but falsy id field blocks the claimed rule.
With `{"id": "", "url": "u"}` the first present non-null value among the
alias fields is the id value `""`, so the claim resolves the candidate id
to `""`; the code's truthiness test (`if cid:`) skips it and returns the
url `"u"` instead. -/
theorem claim_C6_counterexample :
    extract_candidate_id (.dict [("id", .str ""), ("url", .str "u")]) "p.json" = "u" ∧
    extract_candidate_id_claim (.dict [("id", .str ""), ("url", .str "u")]) "p.json" = "" ∧
    extract_candidate_id (.dict [("id", .str ""), ("url", .str "u")]) "p.json" ≠
      extract_candidate_id_claim (.dict [("id", .str ""), ("url", .str "u")]) "p.json" := by
  have h1 : extract_candidate_id (.dict [("id", .str ""), ("url", .str "u")]) "p.json" = "u" := by
    simp [extract_candidate_id, get_field, get_field?, dictGet?, List.find?, PyVal.truthy,
      PyVal.isNone, pyStr]
  have h2 : extract_candidate_id_claim (.dict [("id", .str ""), ("url", .str "u")]) "p.json" = "" := by
    simp [extract_candidate_id_claim, get_field?, dictGet?, List.find?, PyVal.isNone, pyStr]
  exact ⟨h1, h2, by rw [h1, h2]; decide⟩

/-- C6 (amended): identity resolution tries the id-like aliases
`id, candidate_id, profile_id, uid, user_id` via `_get_field` (first
present non-null value), but uses the result only when it is *truthy*;
otherwise it falls through to the url-like aliases
`url, linkedin, linkedin_url, profile_url` under the same truthiness
proviso, and finally to the source filename without extension. A present
non-null but falsy value (such as `""` or `0`) abandons its whole alias
group. -/
theorem claim_C6 (profile : PyVal) (path : String) :
    (∀ v, get_field? profile ["id", "candidate_id", "profile_id", "uid", "user_id"] = Option.some v →
       v.truthy → extract_candidate_id profile path = pyStr v) ∧
    ((∀ v, get_field? profile ["id", "candidate_id", "profile_id", "uid", "user_id"] = Option.some v →
        ¬ v.truthy) →
      ∀ u, get_field? profile ["url", "linkedin", "linkedin_url", "profile_url"] = Option.some u →
        u.truthy → extract_candidate_id profile path = pyStr u) ∧
    ((∀ v, get_field? profile ["id", "candidate_id", "profile_id", "uid", "user_id"] = Option.some v →
        ¬ v.truthy) →
      (∀ u, get_field? profile ["url", "linkedin", "linkedin_url", "profile_url"] = Option.some u →
        ¬ u.truthy) →
      extract_candidate_id profile path = stem path) := by
  refine ⟨?_, ?_, ?_⟩
  · intro v hv htr
    unfold extract_candidate_id get_field
    rw [hv]
    simp only [Option.getD_some]
    rw [if_pos htr]
  · intro hno u hu htr
    unfold extract_candidate_id get_field
    cases hid : get_field? profile ["id", "candidate_id", "profile_id", "uid", "user_id"] with
    | none =>
      rw [hu]
      simp only [Option.getD_some, Option.getD_none]
      rw [if_neg (by simp [PyVal.truthy]), if_pos htr]
    | some v =>
      have hv := hno v hid
      rw [hu]
      simp only [Option.getD_some]
      rw [if_neg (by simpa using hv), if_pos htr]
  · intro hno1 hno2
    unfold extract_candidate_id get_field
    cases hid : get_field? profile ["id", "candidate_id", "profile_id", "uid", "user_id"] with
    | none =>
      cases hurl : get_field? profile ["url", "linkedin", "linkedin_url", "profile_url"] with
      | none =>
        simp only [Option.getD_none]
        rw [if_neg (by simp [PyVal.truthy]), if_neg (by simp [PyVal.truthy])]
      | some u =>
        simp only [Option.getD_none, Option.getD_some]
        rw [if_neg (by simp [PyVal.truthy]), if_neg (by simpa using hno2 u hurl)]
    | some v =>
      cases hurl : get_field? profile ["url", "linkedin", "linkedin_url", "profile_url"] with
      | none =>
        simp only [Option.getD_none, Option.getD_some]
        rw [if_neg (by simpa using hno1 v hid), if_neg (by simp [PyVal.truthy])]
      | some u =>
        simp only [Option.getD_some]
        rw [if_neg (by simpa using hno1 v hid), if_neg (by simpa using hno2 u hurl)]

/-- Witness for C6: a truthy id field resolves to its stringified value. -/
theorem claim_C6_witness :
    extract_candidate_id (.dict [("id", .str "alice"), ("url", .str "u")]) "p.json" = "alice" := by
  have h := (claim_C6 (.dict [("id", .str "alice"), ("url", .str "u")]) "p.json").1
    (.str "alice") rfl (by decide)
  rw [h]
  simp [pyStr]

/-- C7 (corrected): the claimed formula credits the full level whenever
the lower-cased name is a substring of the job text — but the empty string
is a substring of everything, while the code (`name and name in jt`) gives
a language entry with empty name only half credit. A profile whose single
language entry lacks a name scores 1/2, not the claimed 1. -/
theorem claim_C7_counterexample :
    language_score envQ (.dict [("languages", .list [.dict [("level", .num 2)]])]) "x" = 1 / 2 ∧
    language_score_claim envQ (.dict [("languages", .list [.dict [("level", .num 2)]])]) "x" = 1 ∧
    language_score envQ (.dict [("languages", .list [.dict [("level", .num 2)]])]) "x" ≠
      language_score_claim envQ (.dict [("languages", .list [.dict [("level", .num 2)]])]) "x" := by
  have hl : parse_languages envQ
      (get_field (PyVal.dict [("languages", PyVal.list [PyVal.dict [("level", PyVal.num 2)]])])
        ["languages", "language", "langs"] (.list [])) = [("", 2)] := by
    simp [get_field, get_field?, dictGet?, List.find?, PyVal.isNone, parse_languages,
      PyVal.truthy, pyOr, pyFloat?, envQ, clamp02, pyStr, strTrim, trimChars]
  have h1 : language_score envQ (.dict [("languages", .list [.dict [("level", .num 2)]])]) "x" = 1 / 2 := by
    unfold language_score
    rw [hl]
    have hlow : strLower "" = "" := by decide
    simp [hlow, clamp01]
    norm_num
  have h2 : language_score_claim envQ (.dict [("languages", .list [.dict [("level", .num 2)]])]) "x" = 1 := by
    unfold language_score_claim
    rw [hl]
    have hsub : substrB (strLower "") (strLower (normalize_text "x")) = true := by decide
    simp [hsub, clamp01]
  refine ⟨h1, h2, by rw [h1, h2]; norm_num⟩

/-- C7 (amended): for every profile the language score equals
`clamp((Σ level if the name is nonempty and occurs in the normalized
lower-cased job text else 0.5·level) / (2·n), 0, 1)`; zero parsed
languages score 0; and the concrete scenario — languages
`[{"language": "English", "level": "native"}]` against a job text
containing "English" — yields exactly 1. -/
theorem claim_C7 {α : Type} [LinearOrderedField α] (env : Env α) (profile : PyVal)
    (jobText : String) :
    language_score env profile jobText = language_score_amended env profile jobText ∧
    (parse_languages env (get_field profile ["languages", "language", "langs"] (.list [])) = [] →
      language_score env profile jobText = 0) ∧
    language_score envQ
      (.dict [("languages", .list [.dict [("language", .str "English"), ("level", .str "native")]])])
      "Requires English fluency" = 1 := by
  refine ⟨?_, ?_, ?_⟩
  case refine_3 =>
    have hl : parse_languages envQ
        (get_field (PyVal.dict [("languages", PyVal.list
            [PyVal.dict [("language", PyVal.str "English"), ("level", PyVal.str "native")]])])
          ["languages", "language", "langs"] (.list [])) = [("English", 2)] := by
      simp [get_field, get_field?, dictGet?, List.find?, PyVal.isNone, parse_languages,
        PyVal.truthy, pyOr, pyFloat?, envQ, clamp02, pyStr, strTrim, trimChars, tableGet,
        levelTableA, strLower]
    unfold language_score
    rw [hl]
    have hsub : substrB (strLower "English") (strLower (normalize_text "Requires English fluency")) = true := by
      decide
    have hne : strLower "English" ≠ "" := by decide
    simp [hsub, hne, clamp01]
  · unfold language_score language_score_amended
    cases hl : (parse_languages env (get_field profile ["languages", "language", "langs"] (.list []))).isEmpty
    · have hne : parse_languages env (get_field profile ["languages", "language", "langs"] (.list [])) ≠ [] := by
        intro h
        rw [h] at hl
        simp at hl
      have hpos : 0 < (2 : α) * ((parse_languages env (get_field profile ["languages", "language", "langs"] (.list []))).length : α) := by
        have h1 : 0 < (parse_languages env (get_field profile ["languages", "language", "langs"] (.list []))).length :=
          List.length_pos.mpr hne
        have h2 : (0 : α) < ((parse_languages env (get_field profile ["languages", "language", "langs"] (.list []))).length : α) := by
          exact_mod_cast h1
        linarith
      simp only [hl, Bool.false_eq_true, if_false, if_pos hpos]
    · simp only [hl, if_true]
  · intro h
    unfold language_score
    simp [h]

/-- Witness for C7: a profile without any language data scores 0. -/
theorem claim_C7_witness :
    language_score envQ (.dict [("name", .str "x")]) "job" = 0 :=
  (claim_C7 envQ (.dict [("name", .str "x")]) "job").2.1 (by decide)

theorem metaSet_append_of_not_mem (l : List (ℕ × MetaEntry)) (k : ℕ) (m : MetaEntry)
    (h : k ∉ l.map (·.1)) : metaSet l k m = l ++ [(k, m)] := by
  induction l with
  | nil => rfl
  | cons p rest ih =>
    simp only [List.map_cons, List.mem_cons] at h
    push_neg at h
    unfold metaSet
    rw [if_neg (fun he => h.1 he.symm), ih h.2]
    simp

theorem foldl_metaSet_keys :
    ∀ (n a : ℕ) (ms : List MetaEntry) (l : List (ℕ × MetaEntry)),
      n ≤ ms.length → l.map (·.1) = List.range' 0 a →
      (((List.range' a n).zip ms).foldl (fun acc p => metaSet acc p.1 p.2) l).map (·.1) =
        List.range' 0 (a + n) := by
  intro n
  induction n with
  | zero =>
    intro a ms l _ hl
    simpa using hl
  | succ n ih =>
    intro a ms l hn hl
    cases ms with
    | nil => simp at hn
    | cons m ms' =>
      rw [List.range'_succ a n 1]
      simp only [List.zip_cons_cons, List.foldl_cons]
      have hfresh : a ∉ l.map (·.1) := by
        rw [hl, List.mem_range'_1]
        omega
      have hstep : (metaSet l a m).map (·.1) = List.range' 0 (a + 1) := by
        rw [metaSet_append_of_not_mem l a m hfresh]
        have hr : List.range' 0 a ++ List.range' (0 + 1 * a) 1 = List.range' 0 (1 + a) :=
          List.range'_append 0 a 1 1
        simp only [Nat.zero_add, Nat.one_mul] at hr
        have h1 : List.range' a 1 = [a] := by
          rw [List.range'_succ a 0 1]
          simp
        rw [List.map_append, hl]
        simp only [List.map_cons, List.map_nil]
        rw [← h1, hr, Nat.add_comm 1 a]
      have := ih (a + 1) ms' (metaSet l a m) (by simpa using hn) hstep
      rw [this]
      congr 1
      omega

theorem add_wf {α : Type} (st : SectionIndex α) (embs : List (List α))
    (metas : List MetaEntry) (hlen : embs.length = metas.length) (hwf : IndexWF st) :
    IndexWF (st.add embs metas).1 ∧ ((st.add embs metas).1).next_id = st.next_id + embs.length := by
  obtain ⟨hent, hmeta⟩ := hwf
  unfold SectionIndex.add
  by_cases h0 : embs.length = 0
  · rw [if_pos h0]
    exact ⟨⟨hent, hmeta⟩, by simp [h0]⟩
  · simp only [if_neg h0]
    refine ⟨⟨?_, ?_⟩, by simp⟩
    · simp only [List.map_append]
      rw [hent, List.map_fst_zip _ _ (by simp [hlen])]
      have hr := List.range'_append 0 st.next_id embs.length 1
      simp only [Nat.zero_add, Nat.one_mul] at hr
      rw [hr, Nat.add_comm embs.length st.next_id]
    · exact foldl_metaSet_keys embs.length st.next_id metas st.id_to_meta
        (le_of_eq hlen) hmeta

theorem buildIndex_wf {α : Type} (batches : List (List (List α) × List MetaEntry))
    (hb : ∀ b ∈ batches, (b.1).length = (b.2).length) :
    IndexWF (buildIndex α batches) := by
  suffices h : ∀ (st : SectionIndex α), IndexWF st →
      IndexWF (batches.foldl (fun st b => (st.add b.1 b.2).1) st) by
    exact h (SectionIndex.empty α) ⟨rfl, rfl⟩
  induction batches with
  | nil => intro st hst; exact hst
  | cons b rest ih =>
    intro st hst
    have hb' : ∀ x ∈ rest, (x.1).length = (x.2).length := fun x hx => hb x (by simp [hx])
    have hwf1 := (add_wf st b.1 b.2 (hb b (by simp)) hst).1
    exact ih hb' _ hwf1

/-- C5 (confirmed): after any sequence of well-formed `add` calls starting
from the empty index, the number of stored vectors equals the size of
`id_to_meta` and both hold exactly the contiguous ids `0 … next_id-1` in
insertion order; `add` on an empty batch returns 0 and leaves the index
unchanged; every `add` only grows the id counter by the batch size, only
appends entries, and assigns fresh ids `≥` the previous `next_id` (never
reusing one). -/
theorem claim_C5 {α : Type} (batches : List (List (List α) × List MetaEntry))
    (hb : ∀ b ∈ batches, (b.1).length = (b.2).length) :
    ((buildIndex α batches).entries.length = (buildIndex α batches).id_to_meta.length ∧
     (buildIndex α batches).entries.map (·.1) = List.range' 0 (buildIndex α batches).next_id ∧
     (buildIndex α batches).id_to_meta.map (·.1) = List.range' 0 (buildIndex α batches).next_id) ∧
    (∀ (st : SectionIndex α) (metas : List MetaEntry), st.add [] metas = (st, 0)) ∧
    (∀ (st : SectionIndex α) (embs : List (List α)) (metas : List MetaEntry),
      ((st.add embs metas).1).next_id = st.next_id + embs.length ∧
      ∃ l, ((st.add embs metas).1).entries = st.entries ++ l ∧
        ∀ p ∈ l, st.next_id ≤ p.1) := by
  refine ⟨?_, ?_, ?_⟩
  · obtain ⟨hent, hmeta⟩ := buildIndex_wf batches hb
    refine ⟨?_, hent, hmeta⟩
    have h1 := congrArg List.length hent
    have h2 := congrArg List.length hmeta
    simp only [List.length_map] at h1 h2
    rw [h1, h2]
  · intro st metas
    rfl
  · intro st embs metas
    unfold SectionIndex.add
    by_cases h0 : embs.length = 0
    · rw [if_pos h0]
      exact ⟨by simp [h0], [], by simp⟩
    · simp only [if_neg h0]
      refine ⟨by simp, (List.range' st.next_id embs.length).zip embs, by simp, ?_⟩
      intro p hp
      have := (List.of_mem_zip hp).1
      rw [List.mem_range'_1] at this
      omega

/-- Witness for C5: a two-batch build (sizes 2 and 1) yields a well-formed
index with ids `0, 1, 2`. -/
theorem claim_C5_witness :
    (buildIndex ℚ [([[1], [2]], [MetaEntry.blank, MetaEntry.blank]), ([[3]], [MetaEntry.blank])]).entries.length =
      (buildIndex ℚ [([[1], [2]], [MetaEntry.blank, MetaEntry.blank]), ([[3]], [MetaEntry.blank])]).id_to_meta.length ∧
    (buildIndex ℚ [([[1], [2]], [MetaEntry.blank, MetaEntry.blank]), ([[3]], [MetaEntry.blank])]).id_to_meta.map (·.1) =
      List.range' 0 (buildIndex ℚ [([[1], [2]], [MetaEntry.blank, MetaEntry.blank]), ([[3]], [MetaEntry.blank])]).next_id := by
  have h := claim_C5 (α := ℚ)
    [([[1], [2]], [MetaEntry.blank, MetaEntry.blank]), ([[3]], [MetaEntry.blank])]
    (by intro b hb; fin_cases hb <;> rfl)
  exact ⟨h.1.1, h.1.2.2⟩

theorem metaLookup_cons_self (k : ℕ) (m : MetaEntry) (M : List (ℕ × MetaEntry)) :
    metaLookup ((k, m) :: M) k = m := by
  simp [metaLookup, List.find?]

theorem metaLookup_cons_ne (k i : ℕ) (m : MetaEntry) (M : List (ℕ × MetaEntry))
    (h : k ≠ i) : metaLookup ((k, m) :: M) i = metaLookup M i := by
  simp [metaLookup, List.find?, h]

theorem map_metaLookup_range' :
    ∀ (M : List (ℕ × MetaEntry)) (s : ℕ), M.map (·.1) = List.range' s M.length →
      (List.range' s M.length).map (fun i => metaLookup M i) = M.map (·.2) := by
  intro M
  induction M with
  | nil => intro s _; simp
  | cons p M' ih =>
    intro s hkeys
    obtain ⟨k, m⟩ := p
    rw [List.length_cons, List.range'_succ s M'.length 1] at hkeys ⊢
    simp only [List.map_cons] at hkeys
    have hk : k = s := (List.cons_eq_cons.mp hkeys).1
    have htail : M'.map (·.1) = List.range' (s + 1) M'.length := (List.cons_eq_cons.mp hkeys).2
    subst hk
    simp only [List.map_cons]
    congr 1
    · exact metaLookup_cons_self k m M'
    · rw [List.map_congr_left, ih (k + 1) htail]
      intro i hi
      rw [List.mem_range'_1] at hi
      exact metaLookup_cons_ne k i m M' (by omega)

theorem mem_map_metaLookup {M : List (ℕ × MetaEntry)} {s i : ℕ}
    (hkeys : M.map (·.1) = List.range' s M.length) (hi : i ∈ List.range' s M.length) :
    metaLookup M i ∈ M.map (·.2) := by
  rw [← map_metaLookup_range' M s hkeys]
  exact List.mem_map_of_mem _ hi

/-- The relation that sorts faiss results by descending similarity. -/
theorem search_eq_of_ne_nil {α : Type} [LinearOrderedField α] (st : SectionIndex α)
    (q : List α) (topk : ℕ) (hne : st.entries.length ≠ 0) :
    st.search q topk =
      (((st.entries.map (fun e => (innerProd q e.2, (e.1 : ℤ)))).insertionSort
          (fun a b => b.1 ≤ a.1)).take topk).map
        (fun di => (⟨di.1, metaLookup st.id_to_meta di.2.toNat⟩ : Hit α)) := by
  unfold SectionIndex.search faissSearch
  rw [if_neg hne]
  set scored := st.entries.map (fun e => (innerProd q e.2, (e.1 : ℤ))) with hscored
  set sorted := scored.insertionSort (fun a b => b.1 ≤ a.1) with hsorted
  rw [List.filterMap_append]
  have hpad : ∀ n : ℕ, (List.replicate n ((0 : α), (-1 : ℤ))).filterMap
      (fun di => if di.2 < 0 then Option.none
        else Option.some (⟨di.1, metaLookup st.id_to_meta di.2.toNat⟩ : Hit α)) = [] := by
    intro n
    induction n with
    | zero => rfl
    | succ n ih => rw [List.replicate_succ, List.filterMap_cons]; simp [ih]
  rw [hpad, List.append_nil]
  have hnonneg : ∀ di ∈ sorted.take topk, (0 : ℤ) ≤ di.2 := by
    intro di hdi
    have h1 : di ∈ sorted := List.mem_of_mem_take hdi
    have h2 : di ∈ scored := (List.mem_insertionSort _).mp h1
    rw [hscored] at h2
    obtain ⟨e, _, he⟩ := List.mem_map.mp h2
    rw [← he]
    exact Int.natCast_nonneg e.1
  generalize sorted.take topk = xs at hnonneg ⊢
  induction xs with
  | nil => rfl
  | cons x rest ih =>
    rw [List.filterMap_cons, List.map_cons]
    have hx : ¬ x.2 < 0 := not_lt.mpr (hnonneg x (by simp))
    rw [if_neg hx]
    rw [ih (fun di hdi => hnonneg di (by simp [hdi]))]

/-- C9 (confirmed): on any well-formed index, `search` returns at most
`top_k` hits, sorted by descending similarity; with `top_k` at least the
stored count it returns exactly one hit per stored entry whose metadata
multiset is exactly the stored metadata (no padding, no negative or
unknown ids); the empty index yields the empty list; and every returned
metadata belongs to the stored metadata. -/
theorem claim_C9 {α : Type} [LinearOrderedField α] (st : SectionIndex α)
    (hwf : IndexWF st) (q : List α) (topk : ℕ) :
    (st.search q topk).length ≤ topk ∧
    List.Pairwise (fun h1 h2 : Hit α => h2.score ≤ h1.score) (st.search q topk) ∧
    (st.entries.length ≤ topk →
      (st.search q topk).length = st.entries.length ∧
      List.Perm ((st.search q topk).map (·.meta)) (st.id_to_meta.map (·.2))) ∧
    (st.entries = [] → st.search q topk = []) ∧
    (∀ h ∈ st.search q topk, h.meta ∈ st.id_to_meta.map (·.2)) := by
  obtain ⟨hent, hmeta⟩ := hwf
  have hMlen : st.id_to_meta.length = st.next_id := by
    have := congrArg List.length hmeta
    simpa using this
  have hElen : st.entries.length = st.next_id := by
    have := congrArg List.length hent
    simpa using this
  by_cases hemp : st.entries.length = 0
  · have hnil : st.search q topk = [] := by
      unfold SectionIndex.search
      rw [if_pos hemp]
    rw [hnil]
    have hMnil : st.id_to_meta = [] := by
      have : st.id_to_meta.length = 0 := by omega
      exact List.length_eq_zero.mp this
    refine ⟨by simp, by simp, fun _ => ⟨by simp [hemp], ?_⟩, fun _ => rfl, by simp⟩
    rw [hMnil]
    simp
  · haveI : IsTotal (α × ℤ) (fun a b => b.1 ≤ a.1) := ⟨fun a b => le_total b.1 a.1⟩
    haveI : IsTrans (α × ℤ) (fun a b => b.1 ≤ a.1) := ⟨fun a b c hab hbc => le_trans hbc hab⟩
    rw [search_eq_of_ne_nil st q topk hemp]
    set scored := st.entries.map (fun e => (innerProd q e.2, (e.1 : ℤ))) with hscored
    set sorted := scored.insertionSort (fun a b => b.1 ≤ a.1) with hsorted
    set g := fun di : α × ℤ => (⟨di.1, metaLookup st.id_to_meta di.2.toNat⟩ : Hit α) with hg
    have hslen : sorted.length = st.entries.length := by
      rw [hsorted, List.length_insertionSort, hscored, List.length_map]
    have hsortsorted : List.Pairwise (fun a b : α × ℤ => b.1 ≤ a.1) sorted :=
      List.sorted_insertionSort _ scored
    refine ⟨?_, ?_, ?_, ?_, ?_⟩
    · rw [List.length_map, List.length_take]
      exact min_le_left _ _
    · rw [List.pairwise_map]
      exact (hsortsorted.sublist (List.take_sublist topk sorted))
    · intro hk
      have htake : sorted.take topk = sorted := List.take_of_length_le (by omega)
      rw [htake]
      constructor
      · rw [List.length_map, hslen]
      · have hperm : List.Perm sorted scored := List.perm_insertionSort _ scored
        have h1 : List.Perm ((sorted.map g).map (·.meta)) ((scored.map g).map (·.meta)) :=
          (hperm.map g).map _
        have h2 : (scored.map g).map (·.meta) = (st.entries.map (·.1)).map
            (fun i => metaLookup st.id_to_meta i) := by
          rw [hscored]
          simp only [List.map_map]
          apply List.map_congr_left
          intro e _
          simp [hg, Function.comp]
        have h3 : (st.entries.map (·.1)).map (fun i => metaLookup st.id_to_meta i) =
            st.id_to_meta.map (·.2) := by
          rw [hent, ← hMlen]
          exact map_metaLookup_range' st.id_to_meta 0 (by rw [hmeta, hMlen])
        rw [h2, h3] at h1
        exact h1
    · intro habs
      rw [habs] at hemp
      simp at hemp
    · intro h hh
      obtain ⟨di, hdi, hdih⟩ := List.mem_map.mp hh
      have h1 : di ∈ sorted := List.mem_of_mem_take hdi
      have h2 : di ∈ scored := (List.mem_insertionSort _).mp h1
      rw [hscored] at h2
      obtain ⟨e, he, hee⟩ := List.mem_map.mp h2
      have hi : e.1 ∈ List.range' 0 st.id_to_meta.length := by
        rw [hMlen, ← hent]
        exact List.mem_map_of_mem _ he
      have := mem_map_metaLookup (s := 0) (i := e.1) (by rw [hmeta, hMlen]) hi
      rw [← hdih, ← hee]
      simpa [hg] using this

/-- Witness for C9: a concrete two-entry `ℚ`-index is well-formed and
searching it with `top_k = 5` returns both stored metadata entries. -/
theorem claim_C9_witness :
    ((SectionIndex.mk [(0, [(1 : ℚ)]), (1, [2])]
        [(0, MetaEntry.blank), (1, ⟨"b", "skills", "", "o", Option.none⟩)] 2).search [1] 5).length =
      2 ∧
    List.Perm
      (((SectionIndex.mk [(0, [(1 : ℚ)]), (1, [2])]
          [(0, MetaEntry.blank), (1, ⟨"b", "skills", "", "o", Option.none⟩)] 2).search [1] 5).map (·.meta))
      [MetaEntry.blank, ⟨"b", "skills", "", "o", Option.none⟩] := by
  have h := claim_C9 (SectionIndex.mk [(0, [(1 : ℚ)]), (1, [2])]
      [(0, MetaEntry.blank), (1, ⟨"b", "skills", "", "o", Option.none⟩)] 2)
    (by constructor <;> rfl) [1] 5
  have hc := h.2.2.1 (by simp)
  exact ⟨hc.1, hc.2⟩

/-! ### Assoc-list weight lemmas -/

theorem alistGetD_cons_self {β : Type} (p : String × β) (rest : List (String × β))
    (k : String) (d : β) (h : p.1 = k) : alistGetD (p :: rest) k d = p.2 := by
  unfold alistGetD alistGet?
  rw [List.find?_cons_of_pos rest (by simpa using h)]
  rfl

theorem alistGetD_cons_ne {β : Type} (p : String × β) (rest : List (String × β))
    (k : String) (d : β) (h : ¬ p.1 = k) : alistGetD (p :: rest) k d = alistGetD rest k d := by
  unfold alistGetD alistGet?
  rw [List.find?_cons_of_neg rest (by simpa using h)]

theorem alistGetD_of_forall {β : Type} (l : List (String × β)) (k : String) (d : β)
    (P : β → Prop) (hv : ∀ p ∈ l, P p.2) (hd : P d) : P (alistGetD l k d) := by
  unfold alistGetD alistGet?
  cases hf : l.find? (fun p => p.1 = k) with
  | none => simpa using hd
  | some p => exact hv p (List.mem_of_find?_eq_some hf)

theorem alistGetD_map_div {α : Type} [LinearOrderedField α] (w : List (String × α))
    (s : α) (k : String) :
    alistGetD (w.map (fun kv => (kv.1, kv.2 / s))) k 0 = alistGetD w k 0 / s := by
  induction w with
  | nil => simp [alistGetD, alistGet?]
  | cons p rest ih =>
    by_cases hp : p.1 = k
    · rw [List.map_cons, alistGetD_cons_self _ _ _ _ (by simpa using hp),
        alistGetD_cons_self _ _ _ _ hp]
    · rw [List.map_cons, alistGetD_cons_ne _ _ _ _ (by simpa using hp),
        alistGetD_cons_ne _ _ _ _ hp, ih]

theorem sum_map_div {α : Type} [LinearOrderedField α] (w : List (String × α)) (s : α) :
    ((w.map (fun kv => (kv.1, kv.2 / s))).map (·.2)).sum = (w.map (·.2)).sum / s := by
  induction w with
  | nil => simp
  | cons p rest ih =>
    simp only [List.map_cons, List.sum_cons, ih, add_div]

theorem alistErase_sublist {β : Type} (w : List (String × β)) (k : String) :
    List.Sublist (alistErase w k) w := by
  induction w with
  | nil => simp [alistErase]
  | cons p rest ih =>
    unfold alistErase
    by_cases hp : p.1 = k
    · rw [if_pos hp]
      exact List.sublist_cons_self p rest
    · rw [if_neg hp]
      exact ih.cons₂ p

theorem sum_alistErase {α : Type} [LinearOrderedField α] (w : List (String × α)) (k : String) :
    (w.map (·.2)).sum = alistGetD w k 0 + ((alistErase w k).map (·.2)).sum := by
  induction w with
  | nil => simp [alistErase, alistGetD, alistGet?]
  | cons p rest ih =>
    unfold alistErase
    by_cases hp : p.1 = k
    · rw [if_pos hp, alistGetD_cons_self _ _ _ _ hp, List.map_cons, List.sum_cons]
    · rw [if_neg hp, alistGetD_cons_ne _ _ _ _ hp, List.map_cons, List.map_cons,
        List.sum_cons, List.sum_cons, ih]
      ring

theorem alistGetD_erase_ne {β : Type} (w : List (String × β)) (k k' : String) (d : β)
    (h : k' ≠ k) : alistGetD (alistErase w k) k' d = alistGetD w k' d := by
  induction w with
  | nil => simp [alistErase]
  | cons p rest ih =>
    unfold alistErase
    by_cases hp : p.1 = k
    · rw [if_pos hp, alistGetD_cons_ne _ _ _ _ (by rw [hp]; exact fun he => h he.symm)]
    · rw [if_neg hp]
      by_cases hp' : p.1 = k'
      · rw [alistGetD_cons_self _ _ _ _ hp', alistGetD_cons_self _ _ _ _ hp']
      · rw [alistGetD_cons_ne _ _ _ _ hp', alistGetD_cons_ne _ _ _ _ hp', ih]

theorem sum_values_nonneg {α : Type} [LinearOrderedField α] (w : List (String × α))
    (hw : ∀ p ∈ w, 0 ≤ p.2) : 0 ≤ (w.map (·.2)).sum := by
  apply List.sum_nonneg
  intro x hx
  obtain ⟨p, hp, he⟩ := List.mem_map.mp hx
  exact he ▸ hw p hp

theorem sum_lookups_le {α : Type} [LinearOrderedField α] :
    ∀ (ks : List String), ks.Nodup → ∀ (w : List (String × α)), (∀ p ∈ w, 0 ≤ p.2) →
      (ks.map (fun k => alistGetD w k 0)).sum ≤ (w.map (·.2)).sum := by
  intro ks
  induction ks with
  | nil =>
    intro _ w hw
    simpa using sum_values_nonneg w hw
  | cons k rest ih =>
    intro hnd w hw
    rw [List.map_cons, List.sum_cons]
    have hknotin : k ∉ rest := (List.nodup_cons.mp hnd).1
    have hrw : (rest.map (fun k' => alistGetD w k' 0)).sum =
        (rest.map (fun k' => alistGetD (alistErase w k) k' 0)).sum := by
      congr 1
      apply List.map_congr_left
      intro k' hk'
      exact (alistGetD_erase_ne w k k' 0 (fun he => hknotin (he ▸ hk'))).symm
    have herased : ∀ p ∈ alistErase w k, 0 ≤ p.2 :=
      fun p hp => hw p ((alistErase_sublist w k).mem hp)
    have hih := ih (List.nodup_cons.mp hnd).2 (alistErase w k) herased
    have hsplit := sum_alistErase w k
    rw [hrw]
    linarith

theorem alistGetD_of_not_key {β : Type} (l : List (String × β)) (k : String) (d : β)
    (h : ∀ p ∈ l, p.1 ≠ k) : alistGetD l k d = d := by
  unfold alistGetD alistGet?
  rw [List.find?_eq_none.mpr (by intro p hp; simpa using h p hp)]
  rfl

/-! ### Component bound lemmas -/

theorem expAggregate_bounds {α : Type} [LinearOrderedField α] (lognat : ℕ → α)
    (mode : String) (scores : List α) :
    0 ≤ expAggregate lognat mode scores ∧ expAggregate lognat mode scores ≤ 1 := by
  unfold expAggregate
  exact ⟨clamp01_nonneg _, clamp01_le_one _⟩

theorem exp_scores_bounds {α : Type} [LinearOrderedField α] (env : Env α) (lognat : ℕ → α)
    (st : ScorerState α) (jobText : String) (topk : ℕ) (cid : String) :
    0 ≤ alistGetD (compute_experience_scores env lognat st jobText topk) cid 0 ∧
    alistGetD (compute_experience_scores env lognat st jobText topk) cid 0 ≤ 1 := by
  apply alistGetD_of_forall _ _ _ (fun v => 0 ≤ v ∧ v ≤ 1)
  · intro p hp
    unfold compute_experience_scores at hp
    obtain ⟨g, _, he⟩ := List.mem_map.mp hp
    rw [← he]
    exact expAggregate_bounds _ _ _
  · exact ⟨le_refl 0, zero_le_one⟩

theorem section_best_bounds {α : Type} [LinearOrderedField α] (env : Env α)
    (idx : SectionIndex α) (jobText : String) (topk : ℕ) (cid : String) :
    0 ≤ alistGetD (compute_section_best env idx jobText topk) cid 0 ∧
    alistGetD (compute_section_best env idx jobText topk) cid 0 ≤ 1 := by
  apply alistGetD_of_forall _ _ _ (fun v => 0 ≤ v ∧ v ≤ 1)
  · intro p hp
    unfold compute_section_best at hp
    obtain ⟨g, _, he⟩ := List.mem_map.mp hp
    rw [← he]
    exact ⟨clamp01_nonneg _, clamp01_le_one _⟩
  · exact ⟨le_refl 0, zero_le_one⟩

theorem language_score_bounds {α : Type} [LinearOrderedField α] (env : Env α)
    (profile : PyVal) (jobText : String) :
    0 ≤ language_score env profile jobText ∧ language_score env profile jobText ≤ 1 := by
  rw [language_score]
  dsimp only
  split
  · exact ⟨le_refl 0, zero_le_one⟩
  · split
    · exact ⟨clamp01_nonneg _, clamp01_le_one _⟩
    · exact ⟨le_refl 0, zero_le_one⟩

/-- Inversion of a successful `score` call: every returned item comes from
one candidate-store binding, carries exactly the looked-up clamped section
scores and the language score, and its total is the normalized weighted
sum of its components. -/
theorem score_ok_spec {α : Type} [LinearOrderedField α] (env : Env α) (lognat : ℕ → α)
    (st : ScorerState α) (jobText : String) (weights : Option (List (String × α)))
    (topk : ℕ) (res : List (ScoreItem α)) (item : ScoreItem α)
    (h : score env lognat st jobText weights topk = Except.ok res) (hi : item ∈ res) :
    ∃ cid profile, (cid, profile) ∈ st.profiles ∧
      item.candidate_id = cid ∧
      item.experience = alistGetD (compute_experience_scores env lognat st jobText topk) cid 0 ∧
      item.skills = alistGetD (compute_section_best env st.skills_idx jobText topk) cid 0 ∧
      item.education = alistGetD (compute_section_best env st.edu_idx jobText topk) cid 0 ∧
      item.languages = language_score env profile jobText ∧
      item.score =
        alistGetD ((weights.getD (DEFAULT_WEIGHTS α)).map
            (fun kv => (kv.1, kv.2 / ((weights.getD (DEFAULT_WEIGHTS α)).map (·.2)).sum)))
          "experience" 0 * item.experience +
        alistGetD ((weights.getD (DEFAULT_WEIGHTS α)).map
            (fun kv => (kv.1, kv.2 / ((weights.getD (DEFAULT_WEIGHTS α)).map (·.2)).sum)))
          "skills" 0 * item.skills +
        alistGetD ((weights.getD (DEFAULT_WEIGHTS α)).map
            (fun kv => (kv.1, kv.2 / ((weights.getD (DEFAULT_WEIGHTS α)).map (·.2)).sum)))
          "education" 0 * item.education +
        alistGetD ((weights.getD (DEFAULT_WEIGHTS α)).map
            (fun kv => (kv.1, kv.2 / ((weights.getD (DEFAULT_WEIGHTS α)).map (·.2)).sum)))
          "languages" 0 * item.languages := by
  rw [score] at h
  by_cases hc : ¬ (weights.getD (DEFAULT_WEIGHTS α)).isEmpty ∧
      ((weights.getD (DEFAULT_WEIGHTS α)).map (·.2)).sum = 0
  · rw [if_pos hc] at h
    cases h
  · rw [if_neg hc] at h
    injection h with hres
    rw [← hres, List.mem_insertionSort] at hi
    obtain ⟨p, hp, he⟩ := List.mem_map.mp hi
    refine ⟨p.1, p.2, hp, ?_, ?_, ?_, ?_, ?_, ?_⟩ <;> rw [← he]

/-- C1 (confirmed): every breakdown component of every returned
`ScoreResult` lies in `[0,1]`; the total equals the sum over the four
components of the normalized weight (the supplied weight divided by the
sum of all supplied weights) times the component; and for non-negative
supplied weights with positive sum the total lies in `[0,1]`. -/
theorem claim_C1 {α : Type} [LinearOrderedField α] (env : Env α) (lognat : ℕ → α)
    (st : ScorerState α) (jobText : String) (weights : Option (List (String × α)))
    (topk : ℕ) (res : List (ScoreItem α)) (item : ScoreItem α)
    (h : score env lognat st jobText weights topk = Except.ok res) (hi : item ∈ res) :
    (0 ≤ item.experience ∧ item.experience ≤ 1) ∧
    (0 ≤ item.skills ∧ item.skills ≤ 1) ∧
    (0 ≤ item.education ∧ item.education ≤ 1) ∧
    (0 ≤ item.languages ∧ item.languages ≤ 1) ∧
    (item.score =
      alistGetD (weights.getD (DEFAULT_WEIGHTS α)) "experience" 0 /
          ((weights.getD (DEFAULT_WEIGHTS α)).map (·.2)).sum * item.experience +
      alistGetD (weights.getD (DEFAULT_WEIGHTS α)) "skills" 0 /
          ((weights.getD (DEFAULT_WEIGHTS α)).map (·.2)).sum * item.skills +
      alistGetD (weights.getD (DEFAULT_WEIGHTS α)) "education" 0 /
          ((weights.getD (DEFAULT_WEIGHTS α)).map (·.2)).sum * item.education +
      alistGetD (weights.getD (DEFAULT_WEIGHTS α)) "languages" 0 /
          ((weights.getD (DEFAULT_WEIGHTS α)).map (·.2)).sum * item.languages) ∧
    ((∀ p ∈ weights.getD (DEFAULT_WEIGHTS α), 0 ≤ p.2) →
      0 < ((weights.getD (DEFAULT_WEIGHTS α)).map (·.2)).sum →
      0 ≤ item.score ∧ item.score ≤ 1) := by
  obtain ⟨cid, profile, hp, hcid, hexp, hsk, hedu, hlang, htotal⟩ :=
    score_ok_spec env lognat st jobText weights topk res item h hi
  set w := weights.getD (DEFAULT_WEIGHTS α) with hw
  set s := (w.map (·.2)).sum with hs
  have hexp' := exp_scores_bounds env lognat st jobText topk cid
  have hsk' := section_best_bounds env st.skills_idx jobText topk cid
  have hedu' := section_best_bounds env st.edu_idx jobText topk cid
  have hlang' := language_score_bounds env profile jobText
  rw [← hexp] at hexp'
  rw [← hsk] at hsk'
  rw [← hedu] at hedu'
  rw [← hlang] at hlang'
  have htotal' : item.score =
      alistGetD w "experience" 0 / s * item.experience +
      alistGetD w "skills" 0 / s * item.skills +
      alistGetD w "education" 0 / s * item.education +
      alistGetD w "languages" 0 / s * item.languages := by
    rw [htotal, alistGetD_map_div, alistGetD_map_div, alistGetD_map_div, alistGetD_map_div]
  refine ⟨hexp', hsk', hedu', hlang', htotal', ?_⟩
  intro hnn hspos
  have hwexp : 0 ≤ alistGetD w "experience" 0 :=
    alistGetD_of_forall _ _ _ (fun v => 0 ≤ v) hnn (le_refl 0)
  have hwsk : 0 ≤ alistGetD w "skills" 0 :=
    alistGetD_of_forall _ _ _ (fun v => 0 ≤ v) hnn (le_refl 0)
  have hwedu : 0 ≤ alistGetD w "education" 0 :=
    alistGetD_of_forall _ _ _ (fun v => 0 ≤ v) hnn (le_refl 0)
  have hwlang : 0 ≤ alistGetD w "languages" 0 :=
    alistGetD_of_forall _ _ _ (fun v => 0 ≤ v) hnn (le_refl 0)
  have hsub : alistGetD w "experience" 0 + alistGetD w "skills" 0 +
      alistGetD w "education" 0 + alistGetD w "languages" 0 ≤ s := by
    have := sum_lookups_le knownKeys (by decide) w hnn
    simp only [knownKeys, List.map_cons, List.map_nil, List.sum_cons, List.sum_nil] at this
    linarith
  constructor
  · rw [htotal']
    have t1 : 0 ≤ alistGetD w "experience" 0 / s * item.experience :=
      mul_nonneg (div_nonneg hwexp hspos.le) hexp'.1
    have t2 : 0 ≤ alistGetD w "skills" 0 / s * item.skills :=
      mul_nonneg (div_nonneg hwsk hspos.le) hsk'.1
    have t3 : 0 ≤ alistGetD w "education" 0 / s * item.education :=
      mul_nonneg (div_nonneg hwedu hspos.le) hedu'.1
    have t4 : 0 ≤ alistGetD w "languages" 0 / s * item.languages :=
      mul_nonneg (div_nonneg hwlang hspos.le) hlang'.1
    linarith
  · rw [htotal']
    have t1 : alistGetD w "experience" 0 / s * item.experience ≤ alistGetD w "experience" 0 / s :=
      mul_le_of_le_one_right (div_nonneg hwexp hspos.le) hexp'.2
    have t2 : alistGetD w "skills" 0 / s * item.skills ≤ alistGetD w "skills" 0 / s :=
      mul_le_of_le_one_right (div_nonneg hwsk hspos.le) hsk'.2
    have t3 : alistGetD w "education" 0 / s * item.education ≤ alistGetD w "education" 0 / s :=
      mul_le_of_le_one_right (div_nonneg hwedu hspos.le) hedu'.2
    have t4 : alistGetD w "languages" 0 / s * item.languages ≤ alistGetD w "languages" 0 / s :=
      mul_le_of_le_one_right (div_nonneg hwlang hspos.le) hlang'.2
    have hsum : alistGetD w "experience" 0 / s + alistGetD w "skills" 0 / s +
        alistGetD w "education" 0 / s + alistGetD w "languages" 0 / s ≤ 1 := by
      rw [div_add_div_same, div_add_div_same, div_add_div_same]
      exact (div_le_one hspos).mpr hsub
    linarith

/-- Witness for C1: scoring a one-profile store with weights
`{"skills": 1}` succeeds, and the theorem's hypotheses hold at that call,
giving the total in `[0,1]`. -/
theorem claim_C1_witness :
    score envQ (fun _ => 0)
      (ScorerState.mk (SectionIndex.empty ℚ) (SectionIndex.empty ℚ) (SectionIndex.empty ℚ)
        [("a", .dict [])] "sum_norm") "j" (Option.some [("skills", 1)]) 5 =
      Except.ok [ScoreItem.mk "a" 0 0 0 0 0] ∧
    (0 ≤ (ScoreItem.mk "a" (0 : ℚ) 0 0 0 0).score ∧ (ScoreItem.mk "a" (0 : ℚ) 0 0 0 0).score ≤ 1) := by
  have hok : score envQ (fun _ => 0)
      (ScorerState.mk (SectionIndex.empty ℚ) (SectionIndex.empty ℚ) (SectionIndex.empty ℚ)
        [("a", .dict [])] "sum_norm") "j" (Option.some [("skills", 1)]) 5 =
      Except.ok [ScoreItem.mk "a" 0 0 0 0 0] := by
    norm_num [score, DEFAULT_WEIGHTS, compute_experience_scores, compute_section_best,
      SectionIndex.search, SectionIndex.empty, groupByCid, language_score, parse_languages,
      get_field, get_field?, dictGet?, PyVal.truthy, alistGetD, alistGet?, List.find?,
      List.insertionSort, List.orderedInsert, envQ]
  refine ⟨hok, ?_⟩
  exact (claim_C1 envQ (fun _ => 0) _ "j" (Option.some [("skills", 1)]) 5 _ _ hok
    (by simp)).2.2.2.2.2 (by norm_num) (by norm_num)

/-! ### Validator lemmas for C3 -/

theorem filterMap_congr_on {β γ : Type} (l : List β) (f g : β → Option γ)
    (h : ∀ x ∈ l, f x = g x) : l.filterMap f = l.filterMap g := by
  induction l with
  | nil => rfl
  | cons x rest ih =>
    rw [List.filterMap_cons, List.filterMap_cons, h x (by simp),
      ih (fun y hy => h y (by simp [hy]))]

theorem clean_weights_mem {α : Type} (w c : List (String × α))
    (hc : clean_weights w = Option.some c) :
    ∀ p ∈ c, p.1 ∈ knownKeys ∧ alistGet? w p.1 = Option.some p.2 := by
  unfold clean_weights at hc
  by_cases he : (knownKeys.filterMap (fun k => (alistGet? w k).map (fun v => (k, v)))).isEmpty
  · rw [if_pos he] at hc
    cases hc
  · rw [if_neg he] at hc
    injection hc with hc
    intro p hp
    rw [← hc] at hp
    obtain ⟨k, hk, hfk⟩ := List.mem_filterMap.mp hp
    cases hg : alistGet? w k with
    | none => rw [hg] at hfk; cases hfk
    | some v =>
      rw [hg] at hfk
      injection hfk with hfk
      rw [← hfk]
      exact ⟨hk, hg⟩

theorem alistGet?_append_single_ne {α : Type} (w : List (String × α)) (j : String × α)
    (k : String) (h : k ≠ j.1) : alistGet? (w ++ [j]) k = alistGet? w k := by
  induction w with
  | nil =>
    unfold alistGet?
    rw [List.nil_append]
    rw [List.find?_cons_of_neg _ (by simpa using fun he => h he.symm)]
  | cons p rest ih =>
    unfold alistGet? at ih ⊢
    rw [List.cons_append]
    by_cases hp : p.1 = k
    · rw [List.find?_cons_of_pos _ (by simpa using hp),
        List.find?_cons_of_pos _ (by simpa using hp)]
    · rw [List.find?_cons_of_neg _ (by simpa using hp),
        List.find?_cons_of_neg _ (by simpa using hp)]
      exact ih

/-- C3 (confirmed): on the scoring endpoint's path, supplied weights are
normalized to sum to 1 before use; unknown keys are dropped by the request
validator before normalization, so appending one changes nothing; a known
key absent from the request gets normalized weight 0, contributing 0 to
every total; and every returned total is exactly the weighted sum of its
components under the normalized cleaned weights. (Hypotheses: at least one
known key is supplied and the cleaned weights have nonzero sum — a
zero-sum cleaned dict raises instead, see C10.) -/
theorem claim_C3 {α : Type} [LinearOrderedField α] (env : Env α) (lognat : ℕ → α)
    (st : ScorerState α) (jobText : String) (w : List (String × α)) (topk : ℕ)
    (res : List (ScoreItem α)) (item : ScoreItem α) (c : List (String × α))
    (hc : clean_weights w = Option.some c)
    (hs : (c.map (·.2)).sum ≠ 0)
    (h : server_score env lognat st jobText (Option.some w) topk = Except.ok res)
    (hi : item ∈ res) :
    ((c.map (fun kv => (kv.1, kv.2 / (c.map (·.2)).sum))).map (·.2)).sum = 1 ∧
    (∀ p ∈ c, p.1 ∈ knownKeys ∧ alistGet? w p.1 = Option.some p.2) ∧
    (∀ j : String × α, j.1 ∉ knownKeys → clean_weights (w ++ [j]) = Option.some c) ∧
    (∀ k ∈ knownKeys, alistGet? w k = Option.none →
      alistGetD (c.map (fun kv => (kv.1, kv.2 / (c.map (·.2)).sum))) k 0 = 0) ∧
    (item.score =
      alistGetD c "experience" 0 / (c.map (·.2)).sum * item.experience +
      alistGetD c "skills" 0 / (c.map (·.2)).sum * item.skills +
      alistGetD c "education" 0 / (c.map (·.2)).sum * item.education +
      alistGetD c "languages" 0 / (c.map (·.2)).sum * item.languages) := by
  rw [server_score] at h
  by_cases hprof : st.profiles.isEmpty
  · rw [if_pos hprof] at h
    cases h
  rw [if_neg hprof, Option.some_bind, hc] at h
  have hmem := clean_weights_mem w c hc
  refine ⟨?_, hmem, ?_, ?_, ?_⟩
  · rw [sum_map_div, div_self hs]
  · intro j hj
    have hcongr : knownKeys.filterMap (fun k => (alistGet? (w ++ [j]) k).map (fun v => (k, v))) =
        knownKeys.filterMap (fun k => (alistGet? w k).map (fun v => (k, v))) :=
      filterMap_congr_on _ _ _ (fun k hk => by
        rw [alistGet?_append_single_ne w j k (fun he => hj (he ▸ hk))])
    unfold clean_weights at hc ⊢
    rw [hcongr]
    exact hc
  · intro k _ hgk
    rw [alistGetD_map_div]
    have hnk : ∀ p ∈ c, p.1 ≠ k := by
      intro p hp he
      have := (hmem p hp).2
      rw [he, hgk] at this
      cases this
    rw [alistGetD_of_not_key c k 0 hnk, zero_div]
  · obtain ⟨cid, profile, hpmem, hcid, hexp, hsk, hedu, hlang, htotal⟩ :=
      score_ok_spec env lognat st jobText (Option.some c) topk res item h hi
    simp only [Option.getD_some] at htotal
    rw [htotal]
    simp only [alistGetD_map_div]

/-- Witness for C3: the request weights `{"skills": 1, "junk": 5}` are
cleaned to `{"skills": 1}` by the validator, the endpoint succeeds on a
one-profile store, and the normalized weights sum to 1. -/
theorem claim_C3_witness :
    clean_weights [("skills", (1 : ℚ)), ("junk", 5)] = Option.some [("skills", 1)] ∧
    ((([("skills", (1 : ℚ))]).map (fun kv =>
        (kv.1, kv.2 / (([("skills", (1 : ℚ))]).map (·.2)).sum))).map (·.2)).sum = 1 := by
  have hc : clean_weights [("skills", (1 : ℚ)), ("junk", 5)] = Option.some [("skills", 1)] := by
    decide
  have h : server_score envQ (fun _ => 0)
      (ScorerState.mk (SectionIndex.empty ℚ) (SectionIndex.empty ℚ) (SectionIndex.empty ℚ)
        [("a", .dict [])] "sum_norm") "j"
      (Option.some [("skills", (1 : ℚ)), ("junk", 5)]) 5 =
      Except.ok [ScoreItem.mk "a" 0 0 0 0 0] := by
    rw [server_score, if_neg (by decide), Option.some_bind, hc]
    norm_num [score, DEFAULT_WEIGHTS, compute_experience_scores, compute_section_best,
      SectionIndex.search, SectionIndex.empty, groupByCid, language_score, parse_languages,
      get_field, get_field?, dictGet?, PyVal.truthy, alistGetD, alistGet?, List.find?,
      List.insertionSort, List.orderedInsert, envQ]
  exact ⟨hc, (claim_C3 envQ (fun _ => 0) _ "j" [("skills", (1 : ℚ)), ("junk", 5)] 5 _
    (ScoreItem.mk "a" 0 0 0 0 0) [("skills", 1)] hc (by norm_num) h (by simp)).1⟩

/-! ### Ingestion lemmas for C4 -/

theorem add_entries_length {α : Type} (st : SectionIndex α) (embs : List (List α))
    (metas : List MetaEntry) :
    ((st.add embs metas).1).entries.length = st.entries.length + embs.length := by
  unfold SectionIndex.add
  by_cases h0 : embs.length = 0
  · rw [if_pos h0]
    simp [h0]
  · rw [if_neg h0]
    simp

/-- C4 (confirmed): `add_profiles` runs the second full ingestion pass if
and only if the first pass extracted at least one education text. With no
education text each index grows exactly by the first pass's contribution
and the education index is untouched; with education text every index
grows by the first pass's and then additionally the second pass's
contribution, and the candidate store receives the second pass's
assignments on top of the first pass's. The second pass treats each file's
raw JSON value directly as one profile: its store assignment is exactly
`(resolved id of the raw value, raw value)`, with no wrapper unwrapping. -/
theorem claim_C4 {α : Type} [LinearOrderedField α] (env : Env α) (st : ScorerState α)
    (files : List (String × Option PyVal)) :
    ((passAcc (processFile1 env) files).edT = [] →
      (add_profiles env st files).skills_idx.entries.length =
        st.skills_idx.entries.length + (passAcc (processFile1 env) files).skT.length ∧
      (add_profiles env st files).exp_idx.entries.length =
        st.exp_idx.entries.length + (passAcc (processFile1 env) files).exT.length ∧
      (add_profiles env st files).edu_idx = st.edu_idx ∧
      (add_profiles env st files).profiles =
        applyProfs st.profiles (passAcc (processFile1 env) files).profs) ∧
    ((passAcc (processFile1 env) files).edT ≠ [] →
      (add_profiles env st files).skills_idx.entries.length =
        st.skills_idx.entries.length + (passAcc (processFile1 env) files).skT.length +
          (passAcc processFile2 files).skT.length ∧
      (add_profiles env st files).exp_idx.entries.length =
        st.exp_idx.entries.length + (passAcc (processFile1 env) files).exT.length +
          (passAcc processFile2 files).exT.length ∧
      (add_profiles env st files).edu_idx.entries.length =
        st.edu_idx.entries.length + (passAcc (processFile1 env) files).edT.length +
          (passAcc processFile2 files).edT.length ∧
      (add_profiles env st files).profiles =
        applyProfs (applyProfs st.profiles (passAcc (processFile1 env) files).profs)
          (passAcc processFile2 files).profs) ∧
    (∀ (path : String) (raw : PyVal),
      (processFile2 (path, Option.some raw)).profs = [(extract_candidate_id raw path, raw)]) := by
  refine ⟨?_, ?_, fun path raw => rfl⟩
  · intro hed
    have hedb : (passAcc (processFile1 env) files).edT.isEmpty = true := by simp [hed]
    simp only [add_profiles, hedb, if_true]
    by_cases hsk : (passAcc (processFile1 env) files).skT.isEmpty <;>
      by_cases hex : (passAcc (processFile1 env) files).exT.isEmpty <;>
        simp_all [add_entries_length, List.isEmpty_iff]
  · intro hed
    have hedb : (passAcc (processFile1 env) files).edT.isEmpty = false := by
      simpa [List.isEmpty_iff] using hed
    simp only [add_profiles, hedb, Bool.false_eq_true, if_false]
    by_cases hsk : (passAcc (processFile1 env) files).skT.isEmpty <;>
      by_cases hex : (passAcc (processFile1 env) files).exT.isEmpty <;>
        by_cases hsk2 : (passAcc processFile2 files).skT.isEmpty <;>
          by_cases hex2 : (passAcc processFile2 files).exT.isEmpty <;>
            by_cases hed2 : (passAcc processFile2 files).edT.isEmpty <;>
              simp_all [add_entries_length, List.isEmpty_iff]

/-- Witness for C4: a one-file batch whose profile has an education entry
extracts one education text in the first pass, so the second pass runs and
the education index ends up with two stored vectors (one per pass). -/
theorem claim_C4_witness :
    (passAcc (processFile1 envQ) [("a.json", Option.some (PyVal.dict
        [("id", .str "w1"), ("education", .list [.str "PhD Physics"])]))]).edT ≠ [] ∧
    (add_profiles envQ (mkScorer ℚ "sum_norm") [("a.json", Option.some (PyVal.dict
        [("id", .str "w1"), ("education", .list [.str "PhD Physics"])]))]).edu_idx.entries.length = 2 := by
  have hne : (passAcc (processFile1 envQ) [("a.json", Option.some (PyVal.dict
      [("id", .str "w1"), ("education", .list [.str "PhD Physics"])]))]).edT =
      [normalize_text "PhD Physics"] := by
    simp [passAcc, processFile1, processBlob1, extract_profiles_from_blob, dictGet?, List.find?,
      try_parse_maybe_string, FileOut.append, FileOut.empty, extract_candidate_id, get_field,
      get_field?, pyOr, PyVal.truthy, dictGetD, PyVal.isNone, pyStr, flatten_skills,
      firstLongStr, pyGetD, flatten_experience_items, flattenExpFuel, PyVal.size,
      flatten_education, flattenEduFuel, eduEntryLine, strTrim, trimChars, substrB, strTake,
      strJoin, envQ]
  have hne2 : (passAcc processFile2 [("a.json", Option.some (PyVal.dict
      [("id", .str "w1"), ("education", .list [.str "PhD Physics"])]))]).edT =
      [normalize_text "PhD Physics"] := by
    simp [passAcc, processFile2, FileOut.append, FileOut.empty, extract_candidate_id, get_field,
      get_field?, pyOr, PyVal.truthy, dictGetD, dictGet?, List.find?, PyVal.isNone, pyStr,
      flatten_skills, firstLongStr, pyGetD, flatten_experience_items, flattenExpFuel,
      PyVal.size, flatten_education, flattenEduFuel, eduEntryLine, strTrim, trimChars,
      substrB, strTake, strJoin, envQ]
  have hd : (passAcc (processFile1 envQ) [("a.json", Option.some (PyVal.dict
      [("id", .str "w1"), ("education", .list [.str "PhD Physics"])]))]).edT ≠ [] := by
    rw [hne]
    simp
  have h := (claim_C4 envQ (mkScorer ℚ "sum_norm") [("a.json", Option.some (PyVal.dict
      [("id", .str "w1"), ("education", .list [.str "PhD Physics"])]))]).2.1 hd
  refine ⟨hd, ?_⟩
  rw [h.2.2.1, hne, hne2]
  simp [mkScorer, SectionIndex.empty]

end CandScore
